import Mathlib

/-!
# Verification of the spark-sched repository

Shallow embedding of the spark-submitter resource planners and the
spark-scheduler predicate/priority/bind pipeline, with proofs settling the
frozen claims about the natural-language specification.

Conventions used throughout:
* Rust `u32`/`u64` values are embedded as `Nat` or `Int`; where wrap-around
  of `u64` multiplication matters it is written explicitly as `% 2 ^ 64`,
  and `u32` subtractions that may underflow are embedded over `Int` so that
  a negative result witnesses the underflow.
* Fallible Rust code (`Result`, `.unwrap()` panics) is embedded with
  `Except`/`Option`; `none` models a panic.
* `HashMap`s are embedded as association lists; `insert` replaces an
  existing binding in place and otherwise appends, and iteration order is
  the list order (the claims proved here do not depend on hash order:
  where the source iterates a map, either the map has at most one relevant
  entry or the property proved is order-invariant).
-/

set_option maxRecDepth 10000

/-- Decidable equality on `Except`, so that concrete parser results can be
checked with `decide`. -/
instance {ε α : Type} [DecidableEq ε] [DecidableEq α] : DecidableEq (Except ε α)
  | .ok a, .ok b =>
    if h : a = b then .isTrue (by rw [h])
    else .isFalse (by intro hh; exact h (Except.ok.inj hh))
  | .ok _, .error _ => .isFalse (by intro hh; exact Except.noConfusion hh)
  | .error _, .ok _ => .isFalse (by intro hh; exact Except.noConfusion hh)
  | .error a, .error b =>
    if h : a = b then .isTrue (by rw [h])
    else .isFalse (by intro hh; exact h (Except.error.inj hh))

namespace SparkSched

/-! ## Association-list helpers (model of `HashMap`) -/

/-- Lookup in an association list keyed by strings (model of `HashMap::get`). -/
def alLookup {β : Type} : List (String × β) → String → Option β
  | [], _ => none
  | e :: rest, k => if e.1 = k then some e.2 else alLookup rest k

/-- Insert-or-replace in an association list (model of `HashMap::insert`). -/
def alInsert {β : Type} : List (String × β) → String → β → List (String × β)
  | [], k, v => [(k, v)]
  | e :: rest, k, v => if e.1 = k then (k, v) :: rest else e :: alInsert rest k v

/-! ## Quantity parsing (src/spark-scheduler/src/predprio.rs, lines 358-383)

`parseU64` models Rust's `str::parse::<u64>()`: an optional leading `'+'`,
then one or more ASCII digits, failing on any other character and on values
that do not fit in 64 bits. -/

def parseU64 (s : String) : Option Nat :=
  let t := match s.data with
    | '+' :: rest => rest
    | l => l
  if t.isEmpty then none
  else if t.all (fun c => c.isDigit) then
    let v := t.foldl (fun acc c => acc * 10 + (c.toNat - 48)) 0
    if v < 2 ^ 64 then some v else none
  else none

/-- `String.endsWith` restated over the character list, so that concrete
instances reduce inside `decide`. -/
def strEndsWith (s p : String) : Bool := p.data.isSuffixOf s.data

/-- Model of Rust `str::trim_end_matches(char)`: removes every trailing
occurrence of the character. -/
def trimEndChar (c : Char) (s : String) : String :=
  ⟨(s.data.reverse.dropWhile (fun x => x == c)).reverse⟩

/-- One-step/fuelled model of Rust `str::trim_end_matches(&str)`: repeatedly
strips the suffix `p` while present.  Each round removes at least one
character (for nonempty `p`), so fuel `s.length` is always sufficient. -/
def trimEndStrFuel (p : String) : Nat → String → String
  | 0, s => s
  | n + 1, s =>
    if !p.isEmpty && strEndsWith s p then
      trimEndStrFuel p n ⟨s.data.take (s.data.length - p.data.length)⟩
    else s

/-- Model of Rust `str::trim_end_matches(&str)`. -/
def trimEndStr (p s : String) : String := trimEndStrFuel p s.length s

/-- The two failure modes of the quantity parsers: a `ParseIntError`
propagated by `?`, and the `"Unsupported memory unit"` error. -/
inductive QuantityError : Type
  | parseError
  | unsupportedUnit
deriving DecidableEq, Repr

/-- Embedding of `quantity_to_millicores` (predprio.rs:358-367).  The `u64`
multiplication `val * 1000` wraps, hence the explicit `% 2 ^ 64`. -/
def quantity_to_millicores (q : String) : Except QuantityError Nat :=
  if strEndsWith q "m" then
    match parseU64 (trimEndChar 'm' q) with
    | some v => .ok v
    | none => .error .parseError
  else
    match parseU64 q with
    | some v => .ok (v * 1000 % 2 ^ 64)
    | none => .error .parseError

/-- Embedding of `quantity_to_kibytes` (predprio.rs:369-383).  The `u64`
multiplications wrap, hence the explicit `% 2 ^ 64` after each one. -/
def quantity_to_kibytes (q : String) : Except QuantityError Nat :=
  if strEndsWith q "Ki" then
    match parseU64 (trimEndStr "Ki" q) with
    | some v => .ok v
    | none => .error .parseError
  else if strEndsWith q "Mi" then
    match parseU64 (trimEndStr "Mi" q) with
    | some v => .ok (v * 1024 % 2 ^ 64)
    | none => .error .parseError
  else if strEndsWith q "Gi" then
    match parseU64 (trimEndStr "Gi" q) with
    | some v => .ok (v * 1024 % 2 ^ 64 * 1024 % 2 ^ 64)
    | none => .error .parseError
  else .error .unsupportedUnit

/-! Spec-side contract (spec §4.2, "C2 contract"), written from the spec's
words for the refinement claim C6: `to_millicores(q)`: if `q` ends in "m",
trim and parse as integer; otherwise parse and multiply by 1000.
`to_kibytes(q)`: "Ki" gives the value, "Mi" the value times 1024, "Gi" the
value times 1024 squared, anything else fails with `UnsupportedUnit`.
The spec states plain integer products, with no 64-bit reduction. -/

/-- Spec-side `to_millicores`, following the spec's words literally. -/
def spec_to_millicores (q : String) : Except QuantityError Nat :=
  if strEndsWith q "m" then
    (parseU64 (trimEndChar 'm' q)).elim (.error .parseError) .ok
  else
    (parseU64 q).elim (.error .parseError) (fun v => .ok (v * 1000))

/-- Spec-side `to_kibytes`, following the spec's words literally. -/
def spec_to_kibytes (q : String) : Except QuantityError Nat :=
  if strEndsWith q "Ki" then
    (parseU64 (trimEndStr "Ki" q)).elim (.error .parseError) .ok
  else if strEndsWith q "Mi" then
    (parseU64 (trimEndStr "Mi" q)).elim (.error .parseError) (fun v => .ok (v * 1024))
  else if strEndsWith q "Gi" then
    (parseU64 (trimEndStr "Gi" q)).elim (.error .parseError) (fun v => .ok (v * 1024 * 1024))
  else .error .unsupportedUnit

/-- Spec-side `to_millicores` amended with the 64-bit reduction that the
source's `u64` arithmetic performs. -/
def spec_to_millicores_u64 (q : String) : Except QuantityError Nat :=
  if strEndsWith q "m" then
    (parseU64 (trimEndChar 'm' q)).elim (.error .parseError) .ok
  else
    (parseU64 q).elim (.error .parseError) (fun v => .ok (v * 1000 % 2 ^ 64))

/-- Spec-side `to_kibytes` amended with the 64-bit reduction that the
source's `u64` arithmetic performs. -/
def spec_to_kibytes_u64 (q : String) : Except QuantityError Nat :=
  if strEndsWith q "Ki" then
    (parseU64 (trimEndStr "Ki" q)).elim (.error .parseError) .ok
  else if strEndsWith q "Mi" then
    (parseU64 (trimEndStr "Mi" q)).elim (.error .parseError) (fun v => .ok (v * 1024 % 2 ^ 64))
  else if strEndsWith q "Gi" then
    (parseU64 (trimEndStr "Gi" q)).elim (.error .parseError)
      (fun v => .ok (v * 1024 % 2 ^ 64 * 1024 % 2 ^ 64))
  else .error .unsupportedUnit

/-! ## Resource planner (src/spark-submitter/src/resource.rs)

The planner's `u32` quantities are embedded over `Int`: all reachable values
of the source are nonnegative, and a negative intermediate in the embedding
witnesses a `u32` underflow (debug panic / release wrap) in the source. -/

inductive WorkloadType : Type
  | compute
  | storage
deriving DecidableEq, Repr

/-- The planner-visible part of `ClusterState` (cluster.rs): the `nodes` map
is never read by any planner, so only the two totals are embedded. -/
structure ClusterState where
  total_core : Int
  total_mem_mb : Int
deriving DecidableEq, Repr

structure ResourcePlan where
  driver_cpu : Int
  driver_mem_mb : Int
  exec_cpu : Int
  exec_mem_mb : Int
  nexec : Int
deriving DecidableEq, Repr

/-- `ResourcePlan::default()` (resource.rs:242-252). -/
def ResourcePlan.defaultPlan : ResourcePlan :=
  { driver_cpu := 1, driver_mem_mb := 1024, exec_cpu := 2, exec_mem_mb := 2048, nexec := 4 }

/-- The `while n_workload > 0` loop of `FairPlanner::plan` (resource.rs:59-76),
recursing on the remaining workload count; returns the emitted plans and the
final `(total_core, total_mem_mb)`. -/
def fairPlanLoop : Nat → Int → Int → List ResourcePlan × Int × Int
  | 0, tc, tm => ([], tc, tm)
  | n + 1, tc, tm =>
    let core := tc / ((n : Int) + 1)
    let mem_mb := tm / ((n : Int) + 1)
    let plan : ResourcePlan :=
      { driver_cpu := 1, driver_mem_mb := 1024, exec_cpu := 1, exec_mem_mb := 1024,
        nexec := core - 1 }
    let rest := fairPlanLoop n (tc - core) (tm - mem_mb)
    (plan :: rest.1, rest.2)

/-- Embedding of `FairPlanner::plan` (resource.rs:50-80); returns the plans
together with the mutated cluster state. -/
def FairPlanner.plan (state : ClusterState) (workload_types : List WorkloadType)
    (_meta : List String) : List ResourcePlan × ClusterState :=
  let r := fairPlanLoop workload_types.length state.total_core state.total_mem_mb
  (r.1, { total_core := r.2.1, total_mem_mb := r.2.2 })

/-- The `nexec` column of a plan list. -/
def plansNexec (l : List ResourcePlan) : List Int := l.map ResourcePlan.nexec

/-! ### Exact binary64 embedding of the weight arithmetic

`WorkloadAwareFairPlanner::plan` computes its budgets in `f64`
(resource.rs:104-119), and the double-precision rounding is observable in
the emitted plans: with `n_storage = 3` and `total_core = 9` the double
share `0.7f64 / (0.7f64 * 3.0)` times `9.0` is `3.0000000000000004`, whose
ceiling 4 differs from the exact rational value 3.  The embedding therefore
implements IEEE-754 binary64 round-to-nearest-ties-to-even exactly: a
nonnegative value is carried as an exact unnormalized fraction
`(num, den)` of naturals, `roundPair` rounds such a fraction to the
nearest double (returned again as an exact dyadic fraction), and each
source-level `f64` operation performs its exact rational operation
followed by one such rounding, as the hardware does.  Every number
reaching this arithmetic in the source is a `u32` (hence exactly
convertible to `f64`), all values stay far inside the normal finite
range, and all bit lengths stay far below the 4096 fuel. -/

/-- Bit length of a natural number, by fuelled structural recursion so
that the kernel can evaluate it. -/
def bitsNFuel : Nat → Nat → Nat
  | 0, _ => 0
  | fuel + 1, n => if n = 0 then 0 else bitsNFuel fuel (n / 2) + 1

/-- Bit length: for `0 < n < 2 ^ 4096`, the unique `k` with
`2 ^ (k - 1) ≤ n < 2 ^ k`. -/
def bitsN (n : Nat) : Nat := bitsNFuel 4096 n

/-- The floor of the base-2 logarithm of `a / b`, for positive `a b`:
`bitsN a - bitsN b` is off by at most one, and one comparison of
`2 ^ e0 ≤ a / b` (cross-multiplied into the naturals) corrects it. -/
def floorLog2 (a b : Nat) : Int :=
  let e0 : Int := (bitsN a : Int) - (bitsN b : Int)
  if 0 ≤ e0 then (if b * 2 ^ e0.toNat ≤ a then e0 else e0 - 1)
  else (if b ≤ a * 2 ^ (-e0).toNat then e0 else e0 - 1)

/-- Round the exact nonnegative fraction `a / b` (with `0 < b`) to the
nearest binary64 value, ties to even: scale into the 53-bit significand
range `[2 ^ 52, 2 ^ 53)` of the value's binade and round half-to-even on
the exact division remainder.  The result is an exact dyadic fraction.
(No value of this development reaches the subnormal or infinite ranges.) -/
def roundPair (a b : Nat) : Nat × Nat :=
  if a = 0 then (0, 1)
  else
    let t : Int := 52 - floorLog2 a b
    let mn := if 0 ≤ t then a * 2 ^ t.toNat else a
    let md := if 0 ≤ t then b else b * 2 ^ (-t).toNat
    let q := mn / md
    let r := mn % md
    let m := if 2 * r < md then q
      else if md < 2 * r then q + 1
      else if q % 2 = 0 then q else q + 1
    if 0 ≤ t then (m, 2 ^ t.toNat) else (m * 2 ^ (-t).toNat, 1)

/-- One `f64` addition: exact sum, then one rounding. -/
def addPair (x y : Nat × Nat) : Nat × Nat :=
  roundPair (x.1 * y.2 + y.1 * x.2) (x.2 * y.2)

/-- One `f64` multiplication: exact product, then one rounding. -/
def mulPair (x y : Nat × Nat) : Nat × Nat := roundPair (x.1 * y.1) (x.2 * y.2)

/-- One `f64` division: exact quotient, then one rounding.  Division by
zero (`n_compute = n_storage = 0` only, where the planner's loop emits no
plans at all) is mapped to 0 rather than to the infinity the hardware
produces. -/
def divPair (x y : Nat × Nat) : Nat × Nat :=
  if y.1 = 0 then (0, 1) else roundPair (x.1 * y.2) (x.2 * y.1)

/-- `u32 as f64`: exact, since every `u32` lies below `2 ^ 53`. -/
def natPair (n : Nat) : Nat × Nat := (n, 1)

/-- `f64::ceil` on a nonnegative dyadic value: the exact integer ceiling
(exact in `f64`, every integer of the reachable range being
representable). -/
def ceilPair (x : Nat × Nat) : Nat := (x.1 + x.2 - 1) / x.2

/-- `as u32` on a nonnegative integral `f64`: saturating at `u32::MAX`. -/
def castU32 (n : Nat) : Nat := min n 4294967295

/-- The literal `0.3f64` (`COMPUTE_WORKLOAD_WEIGHT`, resource.rs:5),
namely `5404319552844595 / 2 ^ 54`. -/
def f64Weight03 : Nat × Nat := roundPair 3 10

/-- The literal `0.7f64` (`STORAGE_WORKLOAD_WEIGHT`, resource.rs:6),
namely `3152519739159347 / 2 ^ 52`. -/
def f64Weight07 : Nat × Nat := roundPair 7 10

/-- The denominator `0.3 * n_compute as f64 + 0.7 * n_storage as f64`
(resource.rs:104-105): two rounded multiplications, one rounded
addition. -/
def wafDenom (n_c n_s : Nat) : Nat × Nat :=
  addPair (mulPair f64Weight03 (natPair n_c)) (mulPair f64Weight07 (natPair n_s))

/-- `let c = 0.3 / denom` (resource.rs:106). -/
def wafShareC (n_c n_s : Nat) : Nat × Nat := divPair f64Weight03 (wafDenom n_c n_s)

/-- `let s = 0.7 / denom` (resource.rs:107). -/
def wafShareS (n_c n_s : Nat) : Nat × Nat := divPair f64Weight07 (wafDenom n_c n_s)

/-- One per-workload budget of `WorkloadAwareFairPlanner::plan`
(resource.rs:110-119): `(share * total as f64).ceil() as u32`, floored at
`lo` (2 cores or 2048 MB) by `if x > lo { x } else { lo }`.  The
multiplication by the total is one more rounded `f64` operation; the
ceiling and the saturating cast are exact.  `total` is a `u32` in the
source, whence `total.toNat`. -/
def wafBudget (share : Nat × Nat) (total lo : Int) : Int :=
  let raw : Int := (castU32 (ceilPair (mulPair share (natPair total.toNat))) : Int)
  if raw > lo then raw else lo

/-- Pass 1 of `WorkloadAwareFairPlanner::plan` (resource.rs:121-137): emit a
plan with `nexec = c_core - 1` for each compute workload and deduct its
budget from the totals.  `i` is the enumeration index. -/
def wafComputePass (c_core c_mem : Int) :
    List WorkloadType → Nat → List ResourcePlan → Int → Int →
      List ResourcePlan × Int × Int
  | [], _, plans, tc, tm => (plans, tc, tm)
  | ty :: rest, i, plans, tc, tm =>
    match ty with
    | .compute =>
      let plan : ResourcePlan :=
        { driver_cpu := 1, driver_mem_mb := 1024, exec_cpu := 1, exec_mem_mb := 1024,
          nexec := c_core - 1 }
      wafComputePass c_core c_mem rest (i + 1) (plans.set i plan) (tc - c_core) (tm - c_mem)
    | .storage => wafComputePass c_core c_mem rest (i + 1) plans tc tm

/-- Pass 2 of `WorkloadAwareFairPlanner::plan` (resource.rs:139-176): for each
storage workload clamp the budget to the remaining totals, track the maximal
clamped core count, and record a positive `max_core - core` gap. -/
def wafStoragePass (s_core s_mem : Int) :
    List WorkloadType → Nat → List ResourcePlan → Int → Int → Int →
      List (Nat × Int) → List ResourcePlan × Int × Int × Int × List (Nat × Int)
  | [], _, plans, tc, tm, maxCore, gaps => (plans, tc, tm, maxCore, gaps)
  | ty :: rest, i, plans, tc, tm, maxCore, gaps =>
    match ty with
    | .compute => wafStoragePass s_core s_mem rest (i + 1) plans tc tm maxCore gaps
    | .storage =>
      let core := if s_core > tc then tc else s_core
      let mem := if s_mem > tm then tm else s_mem
      let maxCore2 := if core > maxCore then core else maxCore
      let gap := maxCore2 - core
      let gaps2 := if gap > 0 then gaps ++ [(i, gap)] else gaps
      let plan : ResourcePlan :=
        { driver_cpu := 1, driver_mem_mb := 1024, exec_cpu := 1, exec_mem_mb := 1024,
          nexec := core - 1 }
      wafStoragePass s_core s_mem rest (i + 1) (plans.set i plan)
        (tc - core) (tm - mem) maxCore2 gaps2

/-- The `stole` check of the rebalance loop (resource.rs:182-196): some
compute workload still has `nexec > 1`. -/
def wafStealable (wts : List WorkloadType) (plans : List ResourcePlan) : Bool :=
  (List.zip wts plans).any
    (fun e => e.1 == WorkloadType.compute && decide (1 < e.2.nexec))

/-- One pass of the inner `for` loop of the rebalance (resource.rs:198-225):
skip until the enumeration index equals the cursor `ptr`, then advance the
cursor circularly at each visited workload; steal one executor from every
visited compute workload with `nexec > 1` into the plan at `idx`, breaking
out as soon as the gap reaches zero. -/
def wafSweep (len : Nat) (idx : Nat) :
    List (Nat × WorkloadType) → List ResourcePlan → Nat → Int →
      List ResourcePlan × Nat × Int
  | [], plans, ptr, gap => (plans, ptr, gap)
  | (i, ty) :: rest, plans, ptr, gap =>
    if i ≠ ptr then wafSweep len idx rest plans ptr gap
    else
      let ptr2 := if ptr = len - 1 then 0 else ptr + 1
      match ty with
      | .storage => wafSweep len idx rest plans ptr2 gap
      | .compute =>
        if (plans.getD i ResourcePlan.defaultPlan).nexec > 1 then
          let p1 := plans.set i
            { plans.getD i ResourcePlan.defaultPlan with
              nexec := (plans.getD i ResourcePlan.defaultPlan).nexec - 1 }
          let p2 := p1.set idx
            { p1.getD idx ResourcePlan.defaultPlan with
              nexec := (p1.getD idx ResourcePlan.defaultPlan).nexec + 1 }
          if gap - 1 = 0 then (p2, ptr2, gap - 1)
          else wafSweep len idx rest p2 ptr2 (gap - 1)
        else wafSweep len idx rest plans ptr2 gap

/-- The `while *gap > 0` loop of the rebalance (resource.rs:181-226), with an
explicit sweep-count fuel.  Any sweep either lowers the gap or runs to the
end of the workload list and resets the cursor to 0, and a sweep starting at
cursor 0 with a stealable compute plan always lowers the gap, so
`2 * gap + 2` sweeps (the fuel used at the call site) always reach the
loop's own exit conditions. -/
def wafStealLoop (wts : List WorkloadType) (idx : Nat) :
    Nat → List ResourcePlan → Nat → Int → List ResourcePlan × Nat × Int
  | 0, plans, ptr, gap => (plans, ptr, gap)
  | fuel + 1, plans, ptr, gap =>
    if gap > 0 then
      if wafStealable wts plans then
        let r := wafSweep wts.length idx wts.enum plans ptr gap
        wafStealLoop wts idx fuel r.1 r.2.1 r.2.2
      else (plans, ptr, gap)
    else (plans, ptr, gap)

/-- Pass 3 of `WorkloadAwareFairPlanner::plan` (resource.rs:178-227): process
the recorded gaps in insertion order (the source iterates a `HashMap`, whose
order is unspecified; every property proved here is either order-invariant
or evaluated on a run with at most one gap entry).  The cursor `ptr`
persists across entries. -/
def wafRebalance (wts : List WorkloadType) :
    List (Nat × Int) → List ResourcePlan → Nat → List ResourcePlan × Nat
  | [], plans, ptr => (plans, ptr)
  | (idx, gap) :: rest, plans, ptr =>
    let r := wafStealLoop wts idx (2 * gap.toNat + 2) plans ptr gap
    wafRebalance wts rest r.1 r.2.1

/-- The compute-workload count `n_compute` (resource.rs:95-98). -/
abbrev nCompute (wts : List WorkloadType) : Nat :=
  (wts.filter (fun t => t == WorkloadType.compute)).length

/-- The storage-workload count `n_storage` (resource.rs:99-102). -/
abbrev nStorage (wts : List WorkloadType) : Nat :=
  (wts.filter (fun t => t == WorkloadType.storage)).length

/-- Embedding of `WorkloadAwareFairPlanner::plan` (resource.rs:82-231). -/
def WorkloadAwareFairPlanner.plan (state : ClusterState)
    (workload_types : List WorkloadType) (_meta : List String) :
    List ResourcePlan × ClusterState :=
  let n_c := nCompute workload_types
  let n_s := nStorage workload_types
  let c := wafShareC n_c n_s
  let s := wafShareS n_c n_s
  let c_core := wafBudget c state.total_core 2
  let c_mem := wafBudget c state.total_mem_mb 2048
  let s_core := wafBudget s state.total_core 2
  let s_mem := wafBudget s state.total_mem_mb 2048
  let plans0 := List.replicate workload_types.length ResourcePlan.defaultPlan
  let r1 := wafComputePass c_core c_mem workload_types 0 plans0
    state.total_core state.total_mem_mb
  let r2 := wafStoragePass s_core s_mem workload_types 0 r1.1 r1.2.1 r1.2.2 0 []
  let r3 := wafRebalance workload_types r2.2.2.2.2 r2.1 0
  (r3.1, { total_core := r2.2.1, total_mem_mb := r2.2.2.1 })

/-! ## ProfiledPlanner (resource.rs:276-476, with `DEFAULT_DRIVER_CORE = 1`
from spark-submitter/src/main.rs:17) -/

/-- `u64::MAX`, the sentinel of the dynamic program. -/
def u64Max : Nat := 2 ^ 64 - 1

/-- The static `profiled_table()` (resource.rs:385-476). -/
def profiledTable : List ((String × Nat) × Nat) :=
  [(("wc", 1), 82250), (("wc", 2), 67000), (("wc", 3), 66000), (("wc", 4), 72500),
   (("wc", 5), 67000), (("wc", 6), 65500), (("wc", 7), 65000), (("wc", 8), 85000),
   (("wc", 9), 66000), (("wc", 10), 67000), (("wc", 11), 71500), (("wc", 12), 78000),
   (("wc", 13), 78000), (("wc", 14), 79500), (("wc", 15), 94000), (("wc", 16), 95000),
   (("wc", 17), 97500), (("wc", 18), 117000), (("wc", 19), 115000), (("wc", 20), 111000),
   (("wc", 21), 130000),
   (("pi", 1), 103000), (("pi", 2), 67100), (("pi", 3), 57500), (("pi", 4), 55000),
   (("pi", 5), 53000), (("pi", 6), 54000), (("pi", 7), 50000), (("pi", 8), 50000),
   (("pi", 9), 48000), (("pi", 10), 46000), (("pi", 11), 45500), (("pi", 12), 46000),
   (("pi", 13), 44500), (("pi", 14), 44000), (("pi", 15), 43000), (("pi", 16), 42400),
   (("pi", 17), 43250), (("pi", 18), 43400), (("pi", 19), 44600), (("pi", 20), 43500),
   (("pi", 21), 43400),
   (("svm", 1), 71300), (("svm", 2), 74800), (("svm", 3), 80000), (("svm", 4), 85000),
   (("svm", 5), 87000), (("svm", 6), 91500), (("svm", 7), 95000), (("svm", 8), 92000),
   (("svm", 9), 95500), (("svm", 10), 95000), (("svm", 11), 96500), (("svm", 12), 101000),
   (("svm", 13), 102500), (("svm", 14), 107000), (("svm", 15), 140000), (("svm", 16), 200000),
   (("svm", 17), 220000), (("svm", 18), 260000), (("svm", 19), 310000), (("svm", 20), 390000),
   (("svm", 21), 420000),
   (("sort", 1), 280000), (("sort", 2), 162000), (("sort", 3), 121500), (("sort", 4), 128000),
   (("sort", 5), 100000), (("sort", 6), 100000), (("sort", 7), 94000), (("sort", 8), 105000),
   (("sort", 9), 97000), (("sort", 10), 103000), (("sort", 11), 95000), (("sort", 12), 89000),
   (("sort", 13), 88000), (("sort", 14), 94000), (("sort", 15), 104000), (("sort", 16), 115000),
   (("sort", 17), 112000), (("sort", 18), 129000), (("sort", 19), 132000), (("sort", 20), 140000),
   (("sort", 21), 140000)]

/-- Table lookup.  The source's `.unwrap()` panics on a missing profile
entry; the default 0 here is never reached in the instances verified in
this file (every lookup hits the table). -/
def tlookup (t : List ((String × Nat) × Nat)) (k : String × Nat) : Nat :=
  ((t.find? (fun e => e.1 == k)).map (fun e => e.2)).getD 0

/-- Read entry `(i, j)` of a matrix stored as a list of rows (model of
`dp[i][j]` / `decision[i][j]`). -/
def get2 (m : List (List Nat)) (i j : Nat) : Nat := (m.getD i []).getD j 0

/-- Write entry `(i, j)` of a matrix stored as a list of rows. -/
def set2 (m : List (List Nat)) (i j : Nat) (v : Nat) : List (List Nat) :=
  m.set i ((m.getD i []).set j v)

/-- The innermost loop `for workload_nexec in 1..=nexec` of
`min_execution_time` (resource.rs:333-353), updating `(dp, decision)`. -/
def dpInner (table : List ((String × Nat) × Nat)) (wname : String) (i nexec : Nat)
    (st : List (List Nat) × List (List Nat)) : List (List Nat) × List (List Nat) :=
  (List.range nexec).foldl
    (fun st wm1 =>
      let w := wm1 + 1
      let time := tlookup table (wname, w)
      if i = 0 then
        if time < get2 st.1 i nexec then (set2 st.1 i nexec time, set2 st.2 i nexec w)
        else st
      else
        let newTime := max (get2 st.1 (i - 1) (nexec - w)) time
        if newTime < get2 st.1 i nexec then (set2 st.1 i nexec newTime, set2 st.2 i nexec w)
        else st)
    st

/-- The middle loop `for nexec in i+1..=max_exec` of `min_execution_time`
(resource.rs:330-354), including the redundant `dp[i][nexec] = u64::MAX`
re-initialization. -/
def dpMiddle (table : List ((String × Nat) × Nat)) (wname : String) (i maxExec : Nat)
    (st : List (List Nat) × List (List Nat)) : List (List Nat) × List (List Nat) :=
  (List.range' (i + 1) (maxExec - i)).foldl
    (fun st nexec => dpInner table wname i nexec (set2 st.1 i nexec u64Max, st.2))
    st

/-- `Iterator::min_by_key` over an enumerated row: the first index attaining
the minimum, with its value; `(0, 0)` models the `.unwrap()` panic on an
empty row (unreachable: the row has `max_exec + 1 ≥ 1` entries). -/
def minEnum : List Nat → Nat × Nat
  | [] => (0, 0)
  | x :: xs =>
    (x :: xs).enum.foldl (fun best e => if e.2 < best.2 then e else best) (0, x)

/-- `reconstruct_nexecs` (resource.rs:368-382), walking `decision` backward
from workload `i - 1` with the remaining executor budget.  The source's
`usize` subtraction `remaining_exec -= nexecs[i]` is embedded as truncating
`Nat` subtraction; by construction the decision value never exceeds the
remaining budget. -/
def reconGo (decision : List (List Nat)) : Nat → Nat → List Nat → List Nat
  | 0, _, acc => acc
  | i + 1, rem, acc =>
    let nx := get2 decision i rem
    reconGo decision i (rem - nx) (nx :: acc)

/-- Embedding of `min_execution_time` (resource.rs:317-366): the makespan DP
over workloads and executor counts, returning the minimal time and the
reconstructed per-workload executor counts. -/
def min_execution_time (workloads : List String) (table : List ((String × Nat) × Nat))
    (maxExec : Nat) : Nat × List Nat :=
  let dp0 := List.replicate workloads.length (List.replicate (maxExec + 1) u64Max)
  let dec0 := List.replicate workloads.length (List.replicate (maxExec + 1) 0)
  let st := (List.range workloads.length).foldl
    (fun st i => dpMiddle table (workloads.getD i "") i maxExec st) (dp0, dec0)
  let best := minEnum (st.1.getD (workloads.length - 1) [])
  (best.2, reconGo st.2 workloads.length best.1 [])

/-- Embedding of `from_profiled` (resource.rs:288-315): one plan per `meta`
entry with the DP-chosen `nexec`.  `ncore - nworkload * DEFAULT_DRIVER_CORE`
is a `usize` subtraction, embedded as truncating `Nat` subtraction (the
verified instance has `ncore ≥ nworkload`). -/
def from_profiled (state : ClusterState) (_workload_types : List WorkloadType)
    (meta : List String) : List ResourcePlan :=
  let ncore := state.total_core.toNat
  let nworkload := meta.length
  let r := min_execution_time meta profiledTable (ncore - nworkload * 1)
  r.2.map (fun nexec =>
    { driver_cpu := 1, driver_mem_mb := 1024, exec_cpu := 1, exec_mem_mb := 1024,
      nexec := (nexec : Int) })

/-- Embedding of `ProfiledPlanner::plan` (resource.rs:278-286); the cluster
state is passed through unchanged. -/
def ProfiledPlanner.plan (state : ClusterState) (workload_types : List WorkloadType)
    (meta : List String) : List ResourcePlan × ClusterState :=
  (from_profiled state workload_types meta, state)

/-! ## Capacity predicate (predprio.rs:34-70 and 288-356)

`EnoughResourcePredicate::judge` lists all nodes and admits those whose
remaining resources (allocatable minus the summed container requests of the
pods bound to the node, each side a `saturating_sub`) cover the pod's
request. -/

/-- A container's resource requests (predprio.rs:341-349): the optional
`requests["cpu"]` / `requests["memory"]` quantity strings (a container
without a `resources`/`requests` section is a container with neither). -/
structure ContainerReq where
  cpu : Option String
  memory : Option String
deriving DecidableEq, Repr

/-- The predicate-relevant part of a cluster pod: `spec.node_name` and its
containers' requests. -/
structure BoundPod where
  node_name : Option String
  containers : List ContainerReq
deriving DecidableEq, Repr

/-- A node as the predicate reads it: its name and the
`status.allocatable["cpu"]` / `status.allocatable["memory"]` quantity
strings. -/
structure NodeInfo where
  name : String
  cpu : String
  memory : String
deriving DecidableEq, Repr

/-- The pod resource handed to `judge` (the fields predprio.rs reads:
`name`, `millicore`, `mem_kb`). -/
structure PodRequest where
  name : String
  millicore : Nat
  mem_kb : Nat
deriving DecidableEq, Repr

/-- `get_allocatable_resources` (predprio.rs:302-316) for one node: convert
its allocatable quantities. -/
def get_allocatable_resources (n : NodeInfo) : Except QuantityError (Nat × Nat) :=
  match quantity_to_millicores n.cpu with
  | .error e => .error e
  | .ok amc =>
    match quantity_to_kibytes n.memory with
    | .error e => .error e
    | .ok akib => .ok (amc, akib)

/-- The per-pod container summation of `get_allocated_resources`
(predprio.rs:339-351), with the accumulating `u64` additions reduced
modulo `2 ^ 64`. -/
def sumContainers : List ContainerReq → Nat → Nat → Except QuantityError (Nat × Nat)
  | [], c, m => .ok (c, m)
  | cont :: rest, c, m =>
    let cr : Except QuantityError Nat :=
      match cont.cpu with
      | none => .ok c
      | some q => (quantity_to_millicores q).map (fun v => (c + v) % 2 ^ 64)
    match cr with
    | .error e => .error e
    | .ok c2 =>
      let mr : Except QuantityError Nat :=
        match cont.memory with
        | none => .ok m
        | some q => (quantity_to_kibytes q).map (fun v => (m + v) % 2 ^ 64)
      match mr with
      | .error e => .error e
      | .ok m2 => sumContainers rest c2 m2

/-- The pod loop of `get_allocated_resources` (predprio.rs:318-356): sum the
container requests of every pod whose `spec.node_name` (empty when absent)
equals the node. -/
def sumAllocated (node : String) : List BoundPod → Nat → Nat → Except QuantityError (Nat × Nat)
  | [], c, m => .ok (c, m)
  | p :: rest, c, m =>
    if p.node_name.getD "" = node then
      match sumContainers p.containers c m with
      | .error e => .error e
      | .ok r => sumAllocated node rest r.1 r.2
    else sumAllocated node rest c m

/-- `get_allocated_resources` (predprio.rs:318-356). -/
def get_allocated_resources (pods : List BoundPod) (node : String) :
    Except QuantityError (Nat × Nat) :=
  sumAllocated node pods 0 0

/-- `get_remaining_resources` (predprio.rs:288-300): allocatable minus
allocated with `saturating_sub` — which truncating `Nat` subtraction models
exactly. -/
def get_remaining_resources (n : NodeInfo) (pods : List BoundPod) :
    Except QuantityError (Nat × Nat) :=
  match get_allocatable_resources n with
  | .error e => .error e
  | .ok a =>
    match get_allocated_resources pods n.name with
    | .error e => .error e
    | .ok u => .ok (a.1 - u.1, a.2 - u.2)

/-- `EnoughResourcePredicate::judge` (predprio.rs:40-70): admit each node
whose remaining millicores and kibibytes cover the request.  `none` models
the `.unwrap()` panic on a quantity-conversion failure. -/
def EnoughResourcePredicate.judge (nodes : List NodeInfo) (pods : List BoundPod)
    (pod_resource : PodRequest) : Option (List String) :=
  match nodes with
  | [] => some []
  | n :: rest =>
    match get_remaining_resources n pods with
    | .error _ => none
    | .ok r =>
      match EnoughResourcePredicate.judge rest pods pod_resource with
      | none => none
      | some names =>
        some (if r.1 ≥ pod_resource.millicore ∧ r.2 ≥ pod_resource.mem_kb
          then n.name :: names else names)

/-- The plan floor of spec P2: `nexec ≥ 1`, `driver_cpu ≥ 1`, `exec_cpu ≥ 1`,
`driver_mem_mb ≥ 1024`. -/
abbrev planFloor (p : ResourcePlan) : Prop :=
  1 ≤ p.nexec ∧ 1 ≤ p.driver_cpu ∧ 1 ≤ p.exec_cpu ∧ 1024 ≤ p.driver_mem_mb

/-- Sufficient capacity for the WorkloadAwareFairPlanner: the cluster's
cores cover the computed per-workload core budgets in full, so the storage
pass never clamps. -/
abbrev wafCoreCapacity (wts : List WorkloadType) (tc : Int) : Prop :=
  (nCompute wts : Int) * wafBudget (wafShareC (nCompute wts) (nStorage wts)) tc 2 +
    (nStorage wts : Int) * wafBudget (wafShareS (nCompute wts) (nStorage wts)) tc 2 ≤ tc

/-! ## Priorities (predprio.rs:72-263) and `find_best_node` (sched.rs:355-365)

Both priorities receive the candidate list, the pod, the bandwidth map and
the mutable cursor map, and return the score map; the embedding returns the
score map together with the updated cursor map, and `none` models the
`.unwrap()` panics (a missing bandwidth edge, `last()` on an empty list, or
the `% nr_node` division by zero when the cluster has no nodes). -/

/-- The two labels the priorities read from a pod: `labels["spark-uuid"]`
(`get_pod_uuid`, predprio.rs:277-286) and `labels["spark-workload-type"]`
(`get_pod_workload_type`, predprio.rs:266-275); both are `.unwrap()`ed in
the source, so the embedding carries them as present. -/
structure PodLabels where
  uuid : String
  workload_type : String
deriving DecidableEq, Repr

/-- The bandwidth map, keyed by node-name pairs as in the source. -/
abbrev BwMap := List ((String × String) × Nat)

/-- `bw_map.get(&(a, b))`. -/
def bwGet (m : BwMap) (k : String × String) : Option Nat :=
  (m.find? (fun e => e.1 == k)).map (fun e => e.2)

/-- `hard_coded_network_bandwidth_map` (sched.rs:402-441), in insertion
order, with the `u32::MAX` self-edges. -/
def hard_coded_network_bandwidth_map : BwMap :=
  [(("node1", "node02"), 100), (("node02", "node1"), 100),
   (("node1", "node03"), 100), (("node03", "node1"), 100),
   (("node1", "xyji"), 5), (("xyji", "node1"), 5),
   (("node02", "node03"), 100), (("node03", "node02"), 100),
   (("node02", "xyji"), 20), (("xyji", "node02"), 20),
   (("node03", "xyji"), 25), (("xyji", "node03"), 25),
   (("node1", "node1"), 4294967295), (("node02", "node02"), 4294967295),
   (("node03", "node03"), 4294967295), (("xyji", "xyji"), 4294967295)]

/-- Pair each node of a list with its bandwidth to the storage node
`"xyji"` (the `bws` and `all_bws` loops, predprio.rs:106-119 and 195-208);
`none` models the `.unwrap()` panic on a missing edge. -/
def bwsOf (bw : BwMap) : List String → Option (List (String × Nat))
  | [] => some []
  | n :: rest =>
    match bwGet bw (n, "xyji") with
    | none => none
    | some b =>
      match bwsOf bw rest with
      | none => none
      | some l => some ((n, b) :: l)

/-- The comparator of both `sort_by(|a, b| a.1.cmp(&b.1))` calls: ascending
second component. -/
def leSnd (a b : String × Nat) : Prop := a.2 ≤ b.2

instance : DecidableRel leSnd := fun a b => Nat.decLe a.2 b.2

instance : IsTotal (String × Nat) leSnd := ⟨fun a b => Nat.le_total a.2 b.2⟩

instance : IsTrans (String × Nat) leSnd := ⟨fun _ _ _ h h2 => Nat.le_trans h h2⟩

/-- Rust's `slice::sort_by` is stable; a stable sorted permutation is
unique, so stable insertion sort embeds it exactly. -/
def sortBySnd (l : List (String × Nat)) : List (String × Nat) :=
  List.insertionSort leSnd l

/-- The index-finding loop (predprio.rs:122-133): the first position of the
name in `all_bws`, defaulting to 0 when absent. -/
def indexIn (all_bws : List (String × Nat)) (name : String) : Nat :=
  (all_bws.findIdx? (fun ab => ab.1 == name)).getD 0

/-- The `m.insert(node, 0)` initialization loop (predprio.rs:88-91 and
176-179). -/
def zeroScores (candidates : List String) : List (String × Nat) :=
  candidates.foldl (fun m n => alInsert m n 0) []

/-- The score map and the written-back cursor map returned by a priority
call. -/
structure PriorityOutcome where
  scores : List (String × Nat)
  choice : List (String × Nat)
deriving DecidableEq, Repr

/-- The decision loop (predprio.rs:137-145): the first enumerated entry of
`node_with_index` whose position is at least the cursor, with its position. -/
def findFromPos : List (String × Nat) → Nat → Nat → Option (Nat × String)
  | [], _, _ => none
  | x :: rest, pos, c => if pos ≥ c then some (pos, x.1) else findFromPos rest (pos + 1) c

/-- The chosen node and new cursor of the storage path
(predprio.rs:136-151): the candidate at position ≥ cursor if any, with
cursor `(position + 1) % nr_node`; otherwise the last (largest-index)
candidate, with cursor `(its all-nodes index + 1) % nr_node`. -/
def storageChoose (nwi : List (String × Nat)) (c nrNode : Nat) : Option (String × Nat) :=
  match findFromPos nwi 0 c with
  | some pc => if nrNode = 0 then none else some (pc.2, (pc.1 + 1) % nrNode)
  | none =>
    match nwi.getLast? with
    | none => none
    | some lastNode =>
      if nrNode = 0 then none else some (lastNode.1, (lastNode.2 + 1) % nrNode)

/-- The storage (round-robin) path shared by both priorities
(predprio.rs:106-161 and 195-261; the source duplicates this text in the
two `impl`s). -/
def storagePath (allNodes candidates : List String) (bw : BwMap) (uuid : String)
    (choice m0 : List (String × Nat)) : Option PriorityOutcome :=
  let nrNode := allNodes.length
  let c := (alLookup choice uuid).getD 0
  match bwsOf bw candidates with
  | none => none
  | some bws =>
    match bwsOf bw allNodes with
    | none => none
    | some allBwsRaw =>
      let all_bws := sortBySnd allBwsRaw
      let node_with_index := sortBySnd (bws.map (fun b => (b.1, indexIn all_bws b.1)))
      match storageChoose node_with_index c nrNode with
      | none => none
      | some r => some ⟨alInsert m0 r.1 100, alInsert choice uuid r.2⟩

/-- Embedding of `NetworkAwarePriority::priority` (predprio.rs:78-163):
the storage path unconditionally. -/
def NetworkAwarePriority.priority (allNodes candidates : List String) (pod : PodLabels)
    (bw : BwMap) (choice : List (String × Nat)) : Option PriorityOutcome :=
  storagePath allNodes candidates bw pod.uuid choice (zeroScores candidates)

/-- Embedding of `WorkloadNetworkAwarePriority::priority`
(predprio.rs:166-263): for a `"compute"` pod, walk `all_bws` in ascending
bandwidth order and give score 100 to the first candidate found, returning
without touching the cursor; if no candidate appears in `all_bws` (or the
pod is not compute) fall through to the storage path.  The candidate
bandwidth lookups happen before the compute check in the source, so a
missing edge panics on either path. -/
def WorkloadNetworkAwarePriority.priority (allNodes candidates : List String)
    (pod : PodLabels) (bw : BwMap) (choice : List (String × Nat)) : Option PriorityOutcome :=
  match bwsOf bw candidates with
  | none => none
  | some _bws =>
    match bwsOf bw allNodes with
    | none => none
    | some allBwsRaw =>
      let all_bws := sortBySnd allBwsRaw
      if pod.workload_type = "compute" then
        match all_bws.find? (fun ab => candidates.contains ab.1) with
        | some ab => some ⟨alInsert (zeroScores candidates) ab.1 100, choice⟩
        | none => storagePath allNodes candidates bw pod.uuid choice (zeroScores candidates)
      else storagePath allNodes candidates bw pod.uuid choice (zeroScores candidates)

/-- Embedding of `Scheduler::find_best_node` (sched.rs:355-365): fold with
`max_p = 0`, `best_node = ""` and a strict `>` comparison, over the score
map in list order (with a single strictly positive maximal score the result
is the same for every iteration order of the source's `HashMap`). -/
def find_best_node (priorities : List (String × Nat)) : String :=
  (priorities.foldl (fun best kv => if kv.2 > best.2 then kv else best) ("", 0)).1

/-- The sorted all-nodes bandwidth list (`all_bws` after its sort), written
with total lookups; equals the list the priorities compute whenever every
node has a bandwidth edge to `"xyji"`. -/
def allBwsSorted (bw : BwMap) (allNodes : List String) : List (String × Nat) :=
  sortBySnd (allNodes.map (fun n => (n, (bwGet bw (n, "xyji")).getD 0)))

/-- The sorted candidate index list (`node_with_index` after its sort),
written with total lookups. -/
def nodeWithIndex (bw : BwMap) (allNodes candidates : List String) : List (String × Nat) :=
  sortBySnd ((candidates.map (fun n => (n, (bwGet bw (n, "xyji")).getD 0))).map
    (fun b => (b.1, indexIn (allBwsSorted bw allNodes) b.1)))

/-! ## Scheduler control flow (sched.rs:139-335 and ops.rs:69-122)

`sched_pod` and `eval_and_bind` are embedded as pure state transformers.
The orchestrator interactions are inputs: the predicate and the priority
are function parameters (the trait objects of the source; the priority's
bandwidth-map, cursor and history arguments are omitted here — the
concrete strategies are embedded and verified in the priority section
above), and the result of the binding subresource call is a
`BindOutcome`.  Events are recorded in a ghost `events` list: an entry
models the create call of `emit_event` (ops.rs:26-67); a failure of that
call is only logged by the source and changes nothing else. -/

/-- `NodeResource` (sched.rs:30-34), over `Int` as elsewhere. -/
structure NodeResource where
  cpu : Int
  mem_kb : Int
deriving DecidableEq, Repr

/-- `PodResource` (sched.rs:368-372). -/
structure PodResource where
  cpu : Int
  mem_kb : Int
deriving DecidableEq, Repr

/-- `Alloc` (sched.rs:23-28): `nr` pods of a group allocated to a node. -/
structure Alloc where
  node_name : String
  nr : Int
deriving DecidableEq, Repr

/-- The pod fields `sched_pod` reads: metadata name and namespace
(`nspace`; `namespace` is reserved in Lean), the `spark-uuid` label, and
the parsed resource request of `pod_resource` (sched.rs:374-400). -/
structure SchedPod where
  name : String
  nspace : String
  uuid : String
  resource : PodResource
deriving DecidableEq, Repr

/-- The scheduler state one scheduling attempt touches: the node-resource
cache, the `prev_sched` history, and the ghost list of emitted events. -/
structure SchedState where
  node_resource_map : List (String × NodeResource)
  prev_sched : List (String × List Alloc)
  events : List String
deriving DecidableEq, Repr

/-- The observable outcome of the binding subresource call
(ops.rs:81-113): a transport error, a response with no status code, or a
status code. -/
inductive BindOutcome : Type
  | reqError
  | noCode
  | code (c : Int)
deriving DecidableEq, Repr

/-- `bind_pod_to_node`'s result (ops.rs:104-122): `Ok` exactly for a
status code in `[200, 202]`. -/
def bind_ok : BindOutcome → Bool
  | .reqError => false
  | .noCode => false
  | .code c => decide (200 ≤ c) && decide (c ≤ 202)

/-- The resource deduction on a successful bind (sched.rs:320-325): the
source `get_mut(&best_node).unwrap()`s the entry and subtracts the pod's
request; a missing entry panics in the source and is modelled as a no-op
(unreachable when the bound node came from the predicate over the same
map). -/
def deductResources (m : List (String × NodeResource)) (node : String)
    (r : PodResource) : List (String × NodeResource) :=
  match alLookup m node with
  | none => m
  | some nr => alInsert m node { cpu := nr.cpu - r.cpu, mem_kb := nr.mem_kb - r.mem_kb }

/-- The inner loop of `update_sched_hist` (sched.rs:199-209): bump the
matching node's count or push a new `Alloc` at the end. -/
def bumpAlloc : List Alloc → String → List Alloc
  | [], node => [{ node_name := node, nr := 1 }]
  | a :: rest, node =>
    if a.node_name = node then { a with nr := a.nr + 1 } :: rest
    else a :: bumpAlloc rest node

/-- `Scheduler::update_sched_hist` (sched.rs:194-217). -/
def update_sched_hist (hist : List (String × List Alloc)) (uuid node : String) :
    List (String × List Alloc) :=
  match alLookup hist uuid with
  | some alloc_hist => alInsert hist uuid (bumpAlloc alloc_hist node)
  | none => alInsert hist uuid [{ node_name := node, nr := 1 }]

/-- `Scheduler::eval_and_bind` (sched.rs:280-335): predicate, priorities,
`find_best_node`, then the bind attempt.  A successful bind deducts the
pod's request from the cached node resources; a failed bind is only
logged.  Either way the chosen node is returned with `Ok`. -/
def eval_and_bind
    (predicate : List (String × NodeResource) → PodResource → List String)
    (priorityFn : List String → List (String × NodeResource) → SchedPod →
      List (String × Nat))
    (st : SchedState) (pod : SchedPod) (bindOutcome : BindOutcome) :
    Except String (String × SchedState) :=
  let filtered := predicate st.node_resource_map pod.resource
  if filtered = [] then
    .error ("failed to find node that fits pod " ++ pod.nspace ++ "/" ++ pod.name)
  else
    let priorities := priorityFn filtered st.node_resource_map pod
    let best_node := find_best_node priorities
    if bind_ok bindOutcome then
      .ok (best_node,
        { st with
          node_resource_map := deductResources st.node_resource_map best_node pod.resource })
    else
      .ok (best_node, st)

/-- `Scheduler::sched_pod` (sched.rs:139-189): on an `eval_and_bind` error
return `false`; otherwise append the placement to the history
(`update_sched_hist`), then emit the `"Placed pod [ns/name] on <node>\n"`
event, and return `true`. -/
def sched_pod
    (predicate : List (String × NodeResource) → PodResource → List String)
    (priorityFn : List String → List (String × NodeResource) → SchedPod →
      List (String × Nat))
    (st : SchedState) (pod : SchedPod) (bindOutcome : BindOutcome) :
    Bool × SchedState :=
  match eval_and_bind predicate priorityFn st pod bindOutcome with
  | .error _ => (false, st)
  | .ok r =>
    let message := "Placed pod [" ++ pod.nspace ++ "/" ++ pod.name ++ "] on "
      ++ r.1 ++ "\n"
    let st3 := { r.2 with prev_sched := update_sched_hist r.2.prev_sched pod.uuid r.1 }
    let st4 := { st3 with events := st3.events ++ [message] }
    (true, st4)

end SparkSched

open SparkSched

/-- C6, counterexample: on the 20-digit string for `2 ^ 64 - 1` (a valid
`u64`), the code's `u64` product `val * 1000` wraps modulo `2 ^ 64`, so
`quantity_to_millicores` does not return the parsed integer times 1000 as
the claim states; similarly `quantity_to_kibytes` on that value with a
`"Gi"` suffix wraps instead of returning the value times 1024 squared. -/
theorem C6_counterexample :
    quantity_to_millicores "18446744073709551615" = .ok 18446744073709550616 ∧
    spec_to_millicores "18446744073709551615" = .ok 18446744073709551615000 ∧
    quantity_to_millicores "18446744073709551615" ≠
      spec_to_millicores "18446744073709551615" ∧
    quantity_to_kibytes "18446744073709551615Gi" ≠
      spec_to_kibytes "18446744073709551615Gi" := by
  refine ⟨by decide, by decide, by decide, by decide⟩

/-- C6, amended: the quantity parsers satisfy the C2 contract with the
products reduced modulo `2 ^ 64` (equivalently, the plain products whenever
they fit in a `u64`): `to_millicores` returns the integer value of the
string with its trailing `"m"` run trimmed, otherwise the parsed integer
times 1000 mod `2 ^ 64`; `to_kibytes` returns the value for `"Ki"`, the
value times 1024 mod `2 ^ 64` for `"Mi"`, the value times 1024 twice each
reduced mod `2 ^ 64` for `"Gi"`, and fails with the unsupported-unit error
for every other suffix. -/
theorem C6_amended_parsers_match_contract (q : String) :
    quantity_to_millicores q = spec_to_millicores_u64 q ∧
    quantity_to_kibytes q = spec_to_kibytes_u64 q := by
  constructor
  · unfold quantity_to_millicores spec_to_millicores_u64
    by_cases hm : strEndsWith q "m" = true
    · simp only [hm, if_pos]
      cases parseU64 (trimEndChar 'm' q) <;> rfl
    · simp only [hm, if_neg, Bool.not_eq_true]
      cases parseU64 q <;> rfl
  · unfold quantity_to_kibytes spec_to_kibytes_u64
    by_cases hk : strEndsWith q "Ki" = true
    · simp only [hk, if_pos]
      cases parseU64 (trimEndStr "Ki" q) <;> rfl
    · simp only [hk, if_neg, Bool.not_eq_true]
      by_cases hM : strEndsWith q "Mi" = true
      · simp only [hM, if_pos]
        cases parseU64 (trimEndStr "Mi" q) <;> rfl
      · simp only [hM, if_neg, Bool.not_eq_true]
        by_cases hG : strEndsWith q "Gi" = true
        · simp only [hG, if_pos]
          cases parseU64 (trimEndStr "Gi" q) <;> rfl
        · simp only [hG, if_neg, Bool.not_eq_true]

/-- C3, counterexample: on `total_cores = 22`, `total_mem_mb = 22 * 1024` and
4 workloads, the FairPlanner emits `nexec = core - 1` at each step, so the
nexec sequence is `4, 4, 5, 5`, not `5, 5, 6, 6` as the claim states (the
`5, 5, 6, 6` are the per-iteration core allocations). -/
theorem C3_counterexample :
    plansNexec (FairPlanner.plan { total_core := 22, total_mem_mb := 22 * 1024 }
      [.compute, .compute, .compute, .compute] []).1 ≠ [5, 5, 6, 6] := by
  decide

/-- C3, amended: for a FairPlanner run with `total_cores = 22`,
`total_mem_mb = 22 * 1024` and exactly 4 workloads, the per-iteration core
allocations are `5, 5, 6, 6` and the emitted `nexec` sequence is
`4, 4, 5, 5` (each `nexec = core - 1`), consuming all 22 cores. -/
theorem C3_amended_fair_split :
    plansNexec (FairPlanner.plan { total_core := 22, total_mem_mb := 22 * 1024 }
      [.compute, .compute, .compute, .compute] []).1 = [4, 4, 5, 5] ∧
    (FairPlanner.plan { total_core := 22, total_mem_mb := 22 * 1024 }
      [.compute, .compute, .compute, .compute] []).2.total_core = 0 := by
  decide

/-- Each iteration of the fair loop allocates `core = tc / n ≥ 1` and leaves
at least `n - 1` cores for the remaining `n - 1` workloads, so the emitted
`nexec` values sum to exactly the initial cores minus the workload count. -/
theorem fairPlanLoop_nexec_sum (n : Nat) :
    ∀ tc tm : Int, 1 ≤ n → (n : Int) ≤ tc →
      (plansNexec (fairPlanLoop n tc tm).1).sum = tc - n := by
  induction n with
  | zero => intro tc tm h; omega
  | succ n ih =>
    intro tc tm _ hcap
    have hpos : (0 : Int) < (n : Int) + 1 := by positivity
    have hq1 : 1 ≤ tc / ((n : Int) + 1) := by
      rw [Int.le_ediv_iff_mul_le hpos]
      omega
    have hqm : ((n : Int) + 1) * (tc / ((n : Int) + 1)) + tc % ((n : Int) + 1) = tc :=
      Int.ediv_add_emod tc ((n : Int) + 1)
    have hr : 0 ≤ tc % ((n : Int) + 1) := Int.emod_nonneg tc (by omega)
    rcases Nat.eq_zero_or_pos n with hn | hn
    · subst hn
      simp only [fairPlanLoop, plansNexec, List.map_cons, List.map_nil, List.sum_cons,
        List.sum_nil, Nat.cast_zero] at hqm hr ⊢
      omega
    · have hcap2 : (n : Int) ≤ tc - tc / ((n : Int) + 1) := by nlinarith
      have := ih (tc - tc / ((n : Int) + 1)) (tm - tm / ((n : Int) + 1)) hn hcap2
      simp only [fairPlanLoop, plansNexec, List.map_cons, List.sum_cons] at this ⊢
      rw [this]
      push_cast
      ring

/-- C7: for every FairPlanner run over a non-empty workload list of length
`W` on a state with `total_cores ≥ W`, the emitted `nexec` values sum to
exactly `initial_total_cores - W`, and in particular the sum is at most
`initial_total_cores - W`. -/
theorem C7_fair_conservation (tc tm : Int) (wts : List WorkloadType) (meta : List String)
    (hne : wts ≠ []) (hcap : (wts.length : Int) ≤ tc) :
    (plansNexec (FairPlanner.plan { total_core := tc, total_mem_mb := tm } wts meta).1).sum
        = tc - wts.length ∧
    (plansNexec (FairPlanner.plan { total_core := tc, total_mem_mb := tm } wts meta).1).sum
        ≤ tc - wts.length := by
  have hlen : 1 ≤ wts.length := List.length_pos.mpr hne
  have h := fairPlanLoop_nexec_sum wts.length tc tm hlen hcap
  exact ⟨h, le_of_eq h⟩

/-- C7, witness: the conservation theorem applied at `total_cores = 10`,
three workloads; the nexec sum is `10 - 3 = 7`. -/
theorem C7_witness :
    (([.compute, .storage, .compute] : List WorkloadType) ≠ [] ∧
      ((([.compute, .storage, .compute] : List WorkloadType).length : Int) ≤ 10)) ∧
    (plansNexec (FairPlanner.plan { total_core := 10, total_mem_mb := 7 }
        [.compute, .storage, .compute] []).1).sum = 10 - 3 :=
  ⟨⟨by decide, by decide⟩,
    (C7_fair_conservation 10 7 [.compute, .storage, .compute] [] (by decide) (by decide)).1⟩

/-- C4, counterexample: on workload types `[compute, compute, storage,
storage]` with `total_cores = 24` (memory ample), the final nexec vector is
`[2, 2, 8, 8]`: the rebalance brings the second storage workload to
`nexec = 8` (its clamped 7 cores give `nexec = 6`, plus the 2 stolen
executors), not to `nexec = 9` as the claim states. -/
theorem C4_counterexample :
    plansNexec (WorkloadAwareFairPlanner.plan { total_core := 24, total_mem_mb := 100000 }
      [.compute, .compute, .storage, .storage] []).1 = [2, 2, 8, 8] ∧
    (plansNexec (WorkloadAwareFairPlanner.plan { total_core := 24, total_mem_mb := 100000 }
      [.compute, .compute, .storage, .storage] []).1).getD 3 0 ≠ 9 := by
  decide

/-- C4, amended: with workload types `[compute, compute, storage, storage]`
and `total_cores = 24` (memory ample, here `total_mem_mb = 100000`): the core
budgets are `c_core = 4` and `s_core = 9`; after the compute pass 16 cores
remain and both compute plans have `nexec = 3`; the storage pass assigns
cores 9 and 7 (the second clamped to the remaining total), records
`max_core = 9` and gap 2 for the second storage workload, and leaves nexec
`[3, 3, 8, 6]`; the rebalance moves 2 executors from the compute plans (each
going from `nexec = 3` to `nexec = 2`), bringing the second storage workload
to `nexec = 8`, with the gap fully consumed. -/
theorem C4_amended_workload_aware_trace :
    wafBudget (wafShareC 2 2) 24 2 = 4 ∧ wafBudget (wafShareS 2 2) 24 2 = 9 ∧
    (wafComputePass 4 15000 [.compute, .compute, .storage, .storage] 0
      (List.replicate 4 ResourcePlan.defaultPlan) 24 100000).2.1 = 16 ∧
    plansNexec (wafComputePass 4 15000 [.compute, .compute, .storage, .storage] 0
      (List.replicate 4 ResourcePlan.defaultPlan) 24 100000).1 = [3, 3, 4, 4] ∧
    (wafStoragePass 9 35000 [.compute, .compute, .storage, .storage] 0
      (wafComputePass 4 15000 [.compute, .compute, .storage, .storage] 0
        (List.replicate 4 ResourcePlan.defaultPlan) 24 100000).1 16 70000 0 []).2.2.2
      = (9, [(3, 2)]) ∧
    plansNexec (wafStoragePass 9 35000 [.compute, .compute, .storage, .storage] 0
      (wafComputePass 4 15000 [.compute, .compute, .storage, .storage] 0
        (List.replicate 4 ResourcePlan.defaultPlan) 24 100000).1 16 70000 0 []).1
      = [3, 3, 8, 6] ∧
    plansNexec (WorkloadAwareFairPlanner.plan { total_core := 24, total_mem_mb := 100000 }
      [.compute, .compute, .storage, .storage] []).1 = [2, 2, 8, 8] := by
  decide


/-- The budget floor of `wafBudget`: the result is at least `lo`. -/
theorem wafBudget_ge_lo (share : Nat × Nat) (t lo : Int) :
    lo ≤ wafBudget share t lo := by
  dsimp only [wafBudget]
  split
  · omega
  · omega

/-- The binary64 rounding is observable in the emitted plans, and the
embedding reproduces it: at `n_storage = 3`, `total_core = 9` the double
storage budget is `ceil(3.0000000000000004) = 4` (the exact rational value
is 3), so the storage pass over-allocates, clamps the third workload to
the single remaining core and emits `nexec = 0`, where exact rational
budgets would have emitted `[2, 2, 2]`. -/
theorem wafBudget_f64_rounding_observable :
    wafBudget (wafShareS 0 3) 9 2 = 4 ∧
    plansNexec (WorkloadAwareFairPlanner.plan { total_core := 9, total_mem_mb := 0 }
      [.storage, .storage, .storage] []).1 = [3, 3, 0] := by
  decide

/-- The default plan satisfies the floor. -/
theorem planFloor_defaultPlan : planFloor ResourcePlan.defaultPlan := by
  refine ⟨?_, ?_, ?_, ?_⟩ <;> decide

/-- The plan shape emitted by every planner pass satisfies the floor as soon
as its `nexec` does. -/
theorem planFloor_base (v : Int) (hv : 1 ≤ v) :
    planFloor
      { driver_cpu := 1, driver_mem_mb := 1024, exec_cpu := 1,
        exec_mem_mb := 1024, nexec := v } :=
  ⟨hv, le_refl 1, le_refl 1, le_refl 1024⟩

/-- Updating only `nexec` keeps the floor, provided the new value is ≥ 1. -/
theorem planFloor_with_nexec {q : ResourcePlan} (hq : planFloor q) (v : Int) (hv : 1 ≤ v) :
    planFloor { q with nexec := v } :=
  ⟨hv, hq.2.1, hq.2.2.1, hq.2.2.2⟩

/-- `getD` with the default plan stays within a floor-respecting list. -/
theorem floors_getD :
    ∀ (plans : List ResourcePlan), (∀ p ∈ plans, planFloor p) →
      ∀ i : Nat, planFloor (plans.getD i ResourcePlan.defaultPlan)
  | [], _, _ => planFloor_defaultPlan
  | p :: _, h, 0 => h p (by simp)
  | _ :: rest, h, i + 1 =>
    floors_getD rest (fun q hq => h q (by simp [hq])) i

/-- `List.set` with a floor-respecting plan preserves the floor invariant. -/
theorem floors_set {plans : List ResourcePlan} {x : ResourcePlan}
    (h : ∀ p ∈ plans, planFloor p) (hx : planFloor x) (i : Nat) :
    ∀ p ∈ plans.set i x, planFloor p := by
  intro p hp
  rcases List.mem_or_eq_of_mem_set hp with h1 | h1
  · exact h p h1
  · subst h1; exact hx

/-- Every plan emitted by the fair loop satisfies the floor, provided the
remaining cores are at least twice the remaining workload count. -/
theorem fairPlanLoop_floor (n : Nat) :
    ∀ tc tm : Int, 2 * (n : Int) ≤ tc →
      ∀ p ∈ (fairPlanLoop n tc tm).1, planFloor p := by
  induction n with
  | zero => intro tc tm _ p hp; simp [fairPlanLoop] at hp
  | succ n ih =>
    intro tc tm hcap p hp
    have hpos : (0 : Int) < (n : Int) + 1 := by positivity
    have hq2 : 2 ≤ tc / ((n : Int) + 1) := by
      rw [Int.le_ediv_iff_mul_le hpos]
      push_cast at hcap ⊢
      linarith
    have hqm : ((n : Int) + 1) * (tc / ((n : Int) + 1)) + tc % ((n : Int) + 1) = tc :=
      Int.ediv_add_emod tc ((n : Int) + 1)
    have hr : 0 ≤ tc % ((n : Int) + 1) := Int.emod_nonneg tc (by omega)
    simp only [fairPlanLoop, List.mem_cons] at hp
    rcases hp with hp | hp
    · subst hp
      exact planFloor_base (tc / ((n : Int) + 1) - 1) (by omega)
    · have hcap2 : 2 * (n : Int) ≤ tc - tc / ((n : Int) + 1) := by nlinarith
      exact ih (tc - tc / ((n : Int) + 1)) (tm - tm / ((n : Int) + 1)) hcap2 p hp

/-- `nCompute` counts a leading compute entry. -/
theorem nCompute_cons_compute (l : List WorkloadType) :
    nCompute (.compute :: l) = nCompute l + 1 := rfl

/-- `nCompute` ignores storage entries. -/
theorem nCompute_cons_storage (l : List WorkloadType) :
    nCompute (.storage :: l) = nCompute l := rfl

/-- `nStorage` counts a leading storage entry. -/
theorem nStorage_cons_storage (l : List WorkloadType) :
    nStorage (.storage :: l) = nStorage l + 1 := rfl

/-- `nStorage` ignores compute entries. -/
theorem nStorage_cons_compute (l : List WorkloadType) :
    nStorage (.compute :: l) = nStorage l := rfl

/-- The compute pass preserves the plan floor when the compute budget is at
least 2 cores. -/
theorem wafComputePass_floor (c_core c_mem : Int) (hc : 2 ≤ c_core) :
    ∀ (wts : List WorkloadType) (i : Nat) (plans : List ResourcePlan) (tc tm : Int),
      (∀ p ∈ plans, planFloor p) →
      ∀ p ∈ (wafComputePass c_core c_mem wts i plans tc tm).1, planFloor p := by
  intro wts
  induction wts with
  | nil => intro i plans tc tm h; simpa [wafComputePass] using h
  | cons ty rest ih =>
    intro i plans tc tm h
    cases ty with
    | compute =>
      simp only [wafComputePass]
      exact ih _ _ _ _ (floors_set h (planFloor_base (c_core - 1) (by omega)) i)
    | storage =>
      simp only [wafComputePass]
      exact ih _ _ _ _ h

/-- Core accounting for the compute pass: it deducts exactly
`n_compute * c_core` cores. -/
theorem wafComputePass_core (c_core c_mem : Int) :
    ∀ (wts : List WorkloadType) (i : Nat) (plans : List ResourcePlan) (tc tm : Int),
      (wafComputePass c_core c_mem wts i plans tc tm).2.1
        = tc - (nCompute wts : Int) * c_core := by
  intro wts
  induction wts with
  | nil => intro i plans tc tm; simp [wafComputePass, nCompute]
  | cons ty rest ih =>
    intro i plans tc tm
    cases ty with
    | compute =>
      simp only [wafComputePass, ih, nCompute_cons_compute]
      push_cast
      ring
    | storage =>
      simp only [wafComputePass, ih, nCompute_cons_storage]

/-- The storage pass preserves the plan floor when the storage budget is at
least 2 cores and the remaining cores cover every remaining storage
workload's full budget (so the clamp never fires). -/
theorem wafStoragePass_floor (s_core s_mem : Int) (hs : 2 ≤ s_core) :
    ∀ (wts : List WorkloadType) (i : Nat) (plans : List ResourcePlan)
      (tc tm maxCore : Int) (gaps : List (Nat × Int)),
      (nStorage wts : Int) * s_core ≤ tc →
      (∀ p ∈ plans, planFloor p) →
      ∀ p ∈ (wafStoragePass s_core s_mem wts i plans tc tm maxCore gaps).1, planFloor p := by
  intro wts
  induction wts with
  | nil => intro i plans tc tm maxCore gaps _ h; simpa [wafStoragePass] using h
  | cons ty rest ih =>
    intro i plans tc tm maxCore gaps hcap h
    cases ty with
    | compute =>
      rw [nStorage_cons_compute] at hcap
      simp only [wafStoragePass]
      exact ih _ _ _ _ _ _ hcap h
    | storage =>
      rw [nStorage_cons_storage] at hcap
      push_cast at hcap
      have hks : 0 ≤ (nStorage rest : Int) * s_core := by positivity
      have hle : ¬ s_core > tc := by nlinarith
      simp only [wafStoragePass]
      rw [if_neg hle]
      refine ih _ _ _ _ _ _ ?_ (floors_set h (planFloor_base (s_core - 1) (by omega)) i)
      nlinarith

/-- One sweep of the rebalance preserves the plan floor: it decrements only
plans with `nexec > 1` and otherwise only increments. -/
theorem wafSweep_floor (len idx : Nat) :
    ∀ (el : List (Nat × WorkloadType)) (plans : List ResourcePlan) (ptr : Nat) (gap : Int),
      (∀ p ∈ plans, planFloor p) →
      ∀ p ∈ (wafSweep len idx el plans ptr gap).1, planFloor p := by
  intro el
  induction el with
  | nil => intro plans ptr gap h; simpa [wafSweep] using h
  | cons e rest ih =>
    intro plans ptr gap h
    rcases e with ⟨i, ty⟩
    by_cases hi : i ≠ ptr
    · cases ty with
      | compute =>
        simp only [wafSweep]
        rw [if_pos hi]
        exact ih _ _ _ h
      | storage =>
        simp only [wafSweep]
        rw [if_pos hi]
        exact ih _ _ _ h
    · cases ty with
      | storage =>
        simp only [wafSweep]
        rw [if_neg hi]
        exact ih _ _ _ h
      | compute =>
        by_cases hst : (plans.getD i ResourcePlan.defaultPlan).nexec > 1
        · have hp1 : ∀ p ∈ plans.set i
              { plans.getD i ResourcePlan.defaultPlan with
                nexec := (plans.getD i ResourcePlan.defaultPlan).nexec - 1 }, planFloor p :=
            floors_set h
              (planFloor_with_nexec (floors_getD plans h i)
                ((plans.getD i ResourcePlan.defaultPlan).nexec - 1) (by omega)) i
          have hp2 := floors_set hp1
            (planFloor_with_nexec (floors_getD _ hp1 idx)
              (((plans.set i
                { plans.getD i ResourcePlan.defaultPlan with
                  nexec := (plans.getD i ResourcePlan.defaultPlan).nexec - 1 }).getD idx
                    ResourcePlan.defaultPlan).nexec + 1)
              (by have := (floors_getD _ hp1 idx).1; omega)) idx
          simp only [wafSweep]
          rw [if_neg hi, if_pos hst]
          split
          · exact hp2
          · exact ih _ _ _ hp2
        · simp only [wafSweep]
          rw [if_neg hi, if_neg hst]
          exact ih _ _ _ h

/-- The fuelled steal loop preserves the plan floor. -/
theorem wafStealLoop_floor (wts : List WorkloadType) (idx : Nat) :
    ∀ (fuel : Nat) (plans : List ResourcePlan) (ptr : Nat) (gap : Int),
      (∀ p ∈ plans, planFloor p) →
      ∀ p ∈ (wafStealLoop wts idx fuel plans ptr gap).1, planFloor p := by
  intro fuel
  induction fuel with
  | zero => intro plans ptr gap h; simpa [wafStealLoop] using h
  | succ fuel ih =>
    intro plans ptr gap h
    simp only [wafStealLoop]
    split
    · split
      · exact ih _ _ _ (wafSweep_floor wts.length idx wts.enum plans ptr gap h)
      · exact h
    · exact h

/-- The rebalance pass preserves the plan floor. -/
theorem wafRebalance_floor (wts : List WorkloadType) :
    ∀ (gaps : List (Nat × Int)) (plans : List ResourcePlan) (ptr : Nat),
      (∀ p ∈ plans, planFloor p) →
      ∀ p ∈ (wafRebalance wts gaps plans ptr).1, planFloor p := by
  intro gaps
  induction gaps with
  | nil => intro plans ptr h; simpa [wafRebalance] using h
  | cons g rest ih =>
    intro plans ptr h
    rcases g with ⟨idx, gap⟩
    simp only [wafRebalance]
    exact ih _ _ (wafStealLoop_floor wts idx _ plans ptr gap h)

/-- C8, counterexample: on a cluster with `total_cores = 2` and two storage
workloads, the WorkloadAwareFairPlanner clamps the second storage budget to
the 0 remaining cores and emits `nexec = core - 1 = -1`: the `u32`
subtraction underflows and the emitted plan violates `nexec ≥ 1`. -/
theorem C8_counterexample :
    plansNexec (WorkloadAwareFairPlanner.plan { total_core := 2, total_mem_mb := 0 }
      [.storage, .storage] []).1 = [1, -1] ∧
    ¬ ∀ p ∈ (WorkloadAwareFairPlanner.plan { total_core := 2, total_mem_mb := 0 }
      [.storage, .storage] []).1, planFloor p := by
  refine ⟨by decide, by decide⟩

/-- C8, amended: every emitted plan satisfies `nexec ≥ 1`, `driver_cpu ≥ 1`,
`exec_cpu ≥ 1` and `driver_mem_mb ≥ 1024` provided the cluster's cores
suffice: for FairPlanner whenever `total_cores ≥ 2 · W`; for
WorkloadAwareFairPlanner whenever the cores cover the computed compute and
storage budgets in full — the budgets being the program's own binary64
ones, embedded exactly — so the storage-pass clamp never fires; and for
ProfiledPlanner at the profiled scenario (6 cores, workloads `pi`, `wc`).
Without such a capacity bound the `nexec := core - 1` subtraction can
underflow (see the counterexample). -/
theorem C8_amended_planner_floor :
    (∀ (tc tm : Int) (wts : List WorkloadType) (meta : List String),
      2 * (wts.length : Int) ≤ tc →
      ∀ p ∈ (FairPlanner.plan { total_core := tc, total_mem_mb := tm } wts meta).1,
        planFloor p) ∧
    (∀ (tc tm : Int) (wts : List WorkloadType) (meta : List String),
      wafCoreCapacity wts tc →
      ∀ p ∈ (WorkloadAwareFairPlanner.plan { total_core := tc, total_mem_mb := tm } wts meta).1,
        planFloor p) ∧
    (∀ p ∈ (ProfiledPlanner.plan { total_core := 6, total_mem_mb := 8192 }
        [.compute, .storage] ["pi", "wc"]).1, planFloor p) := by
  refine ⟨?_, ?_, ?_⟩
  · intro tc tm wts meta h p hp
    simp only [FairPlanner.plan] at hp
    exact fairPlanLoop_floor wts.length tc tm h p hp
  · intro tc tm wts meta h p hp
    simp only [WorkloadAwareFairPlanner.plan] at hp
    refine wafRebalance_floor wts _ _ _ ?_ p hp
    refine wafStoragePass_floor _ _
      (wafBudget_ge_lo (wafShareS (nCompute wts) (nStorage wts)) tc 2) wts 0 _ _ _ _ _ ?_ ?_
    · rw [wafComputePass_core]
      have hcap :
          (nCompute wts : Int) * wafBudget (wafShareC (nCompute wts) (nStorage wts)) tc 2 +
          (nStorage wts : Int) * wafBudget (wafShareS (nCompute wts) (nStorage wts)) tc 2
            ≤ tc := h
      linarith
    · refine wafComputePass_floor _ _
        (wafBudget_ge_lo (wafShareC (nCompute wts) (nStorage wts)) tc 2) wts 0 _ tc tm ?_
      intro p hp
      rw [List.eq_of_mem_replicate hp]
      exact planFloor_defaultPlan
  · decide

/-- C8, witness: the amended floor theorem applied at `total_cores = 8` with
three workloads (FairPlanner) and at `total_cores = 40` with one compute and
one storage workload (WorkloadAwareFairPlanner, budgets 12 and 28). -/
theorem C8_witness :
    (2 * (([.compute, .compute, .storage] : List WorkloadType).length : Int) ≤ 8 ∧
      wafCoreCapacity [.compute, .storage] 40) ∧
    (∀ p ∈ (FairPlanner.plan { total_core := 8, total_mem_mb := 4 }
        [.compute, .compute, .storage] []).1, planFloor p) ∧
    (∀ p ∈ (WorkloadAwareFairPlanner.plan { total_core := 40, total_mem_mb := 0 }
        [.compute, .storage] []).1, planFloor p) :=
  ⟨⟨by decide, by decide⟩,
    C8_amended_planner_floor.1 8 4 [.compute, .compute, .storage] [] (by decide),
    C8_amended_planner_floor.2.1 40 0 [.compute, .storage] [] (by decide)⟩

/-- Splitting a successful `get_remaining_resources` into its allocatable
and allocated components. -/
theorem get_remaining_eq (n : NodeInfo) (pods : List BoundPod) {r : Nat × Nat}
    (h : get_remaining_resources n pods = .ok r) :
    ∃ a u : Nat × Nat, get_allocatable_resources n = .ok a ∧
      get_allocated_resources pods n.name = .ok u ∧ r = (a.1 - u.1, a.2 - u.2) := by
  unfold get_remaining_resources at h
  cases ha : get_allocatable_resources n with
  | error e => rw [ha] at h; exact absurd h (by simp)
  | ok a =>
    rw [ha] at h
    cases hu : get_allocated_resources pods n.name with
    | error e => rw [hu] at h; exact absurd h (by simp)
    | ok u =>
      rw [hu] at h
      exact ⟨a, u, rfl, rfl, (Except.ok.inj h).symm⟩

/-- C5, counterexample: a node with allocatable 1000 millicores whose bound
pods request 2000 millicores is admitted for a zero request (the saturating
subtraction clamps the remainder to 0 and `0 ≥ 0` holds), yet the integer
difference `allocatable - bound = 1000 - 2000 = -1000` is not at least the
request, so admission does not imply the claim's non-saturated integer
inequality. -/
theorem C5_counterexample :
    EnoughResourcePredicate.judge
      [{ name := "n1", cpu := "1000m", memory := "1000Ki" }]
      [{ node_name := some "n1",
         containers := [{ cpu := some "2000m", memory := some "2000Ki" }] }]
      { name := "p", millicore := 0, mem_kb := 0 } = some ["n1"] ∧
    get_allocatable_resources { name := "n1", cpu := "1000m", memory := "1000Ki" }
      = .ok (1000, 1000) ∧
    get_allocated_resources
      [{ node_name := some "n1",
         containers := [{ cpu := some "2000m", memory := some "2000Ki" }] }] "n1"
      = .ok (2000, 2000) ∧
    ¬ ((0 : Int) ≤ (1000 : Int) - 2000) := by
  refine ⟨by decide, by decide, by decide, by decide⟩

/-- C5, amended: for every node admitted by the predicate, the saturated
difference `allocatable.saturating_sub(bound)` covers the pod request in
both dimensions; consequently the non-saturated integer inequality
`allocatable - bound ≥ request` holds in each dimension in which the
request is positive (the original claim's unconditional integer inequality
fails only for zero requests on overcommitted nodes). -/
theorem C5_amended_predicate_saturated (nodes : List NodeInfo) (pods : List BoundPod)
    (req : PodRequest) (names : List String)
    (hj : EnoughResourcePredicate.judge nodes pods req = some names) :
    ∀ nm ∈ names, ∃ n ∈ nodes, n.name = nm ∧
      ∃ amc akib cmc ckib : Nat,
        get_allocatable_resources n = .ok (amc, akib) ∧
        get_allocated_resources pods n.name = .ok (cmc, ckib) ∧
        req.millicore ≤ amc - cmc ∧ req.mem_kb ≤ akib - ckib ∧
        (0 < req.millicore → (req.millicore : Int) ≤ (amc : Int) - (cmc : Int)) ∧
        (0 < req.mem_kb → (req.mem_kb : Int) ≤ (akib : Int) - (ckib : Int)) := by
  induction nodes generalizing names with
  | nil =>
    simp only [EnoughResourcePredicate.judge, Option.some.injEq] at hj
    subst hj
    intro nm hnm
    exact absurd hnm (by simp)
  | cons n rest ih =>
    simp only [EnoughResourcePredicate.judge] at hj
    cases h1 : get_remaining_resources n pods with
    | error e => rw [h1] at hj; exact absurd hj (by simp)
    | ok r =>
      rw [h1] at hj
      cases h2 : EnoughResourcePredicate.judge rest pods req with
      | none => rw [h2] at hj; exact absurd hj (by simp)
      | some names2 =>
        rw [h2] at hj
        simp only [Option.some.injEq] at hj
        obtain ⟨a, u, ha, hu, hr⟩ := get_remaining_eq n pods h1
        by_cases hcond : r.1 ≥ req.millicore ∧ r.2 ≥ req.mem_kb
        · rw [if_pos hcond] at hj
          subst hj
          intro nm hnm
          rcases List.mem_cons.mp hnm with hnm | hnm
          · refine ⟨n, by simp, hnm.symm, a.1, a.2, u.1, u.2, by simpa using ha,
              by simpa using hu, ?_, ?_, ?_, ?_⟩
            · have := hcond.1
              rw [hr] at this
              exact this
            · have := hcond.2
              rw [hr] at this
              exact this
            · intro hpos
              have := hcond.1
              rw [hr] at this
              simp only at this
              omega
            · intro hpos
              have := hcond.2
              rw [hr] at this
              simp only at this
              omega
          · obtain ⟨n2, hn2, rest2⟩ := ih names2 h2 nm hnm
            exact ⟨n2, List.mem_cons_of_mem n hn2, rest2⟩
        · rw [if_neg hcond] at hj
          subst hj
          intro nm hnm
          obtain ⟨n2, hn2, rest2⟩ := ih names2 h2 nm hnm
          exact ⟨n2, List.mem_cons_of_mem n hn2, rest2⟩

/-- C5, witness: the amended theorem applied to a node with allocatable
`(4000m, 8000Ki)`, one bound pod requesting `(1000m, 1000Ki)`, and a pod
request `(1500, 2000)`; the node is admitted and its integer slack covers
the request. -/
theorem C5_witness :
    EnoughResourcePredicate.judge
      [{ name := "n1", cpu := "4000m", memory := "8000Ki" }]
      [{ node_name := some "n1",
         containers := [{ cpu := some "1000m", memory := some "1000Ki" }] }]
      { name := "p", millicore := 1500, mem_kb := 2000 } = some ["n1"] ∧
    (∀ nm ∈ ["n1"], ∃ n ∈ [({ name := "n1", cpu := "4000m", memory := "8000Ki" } : NodeInfo)],
      n.name = nm ∧
      ∃ amc akib cmc ckib : Nat,
        get_allocatable_resources n = .ok (amc, akib) ∧
        get_allocated_resources
          [{ node_name := some "n1",
             containers := [{ cpu := some "1000m", memory := some "1000Ki" }] }] n.name
          = .ok (cmc, ckib) ∧
        1500 ≤ amc - cmc ∧ 2000 ≤ akib - ckib ∧
        (0 < 1500 → ((1500 : Nat) : Int) ≤ (amc : Int) - (cmc : Int)) ∧
        (0 < 2000 → ((2000 : Nat) : Int) ≤ (akib : Int) - (ckib : Int))) :=
  ⟨by decide,
    C5_amended_predicate_saturated
      [{ name := "n1", cpu := "4000m", memory := "8000Ki" }]
      [{ node_name := some "n1",
         containers := [{ cpu := some "1000m", memory := some "1000Ki" }] }]
      { name := "p", millicore := 1500, mem_kb := 2000 } ["n1"] (by decide)⟩

/-- Looking up the freshly inserted key. -/
theorem alLookup_alInsert_self {β : Type} (m : List (String × β)) (k : String) (v : β) :
    alLookup (alInsert m k v) k = some v := by
  induction m with
  | nil => simp [alInsert, alLookup]
  | cons e rest ih =>
    by_cases h : e.1 = k
    · simp [alInsert, h, alLookup]
    · simp [alInsert, h, alLookup, ih]

/-- Insertion does not disturb other keys. -/
theorem alLookup_alInsert_ne {β : Type} (m : List (String × β)) (k : String) (v : β)
    (k2 : String) (h : k2 ≠ k) :
    alLookup (alInsert m k v) k2 = alLookup m k2 := by
  induction m with
  | nil => simp [alInsert, alLookup, Ne.symm h]
  | cons e rest ih =>
    by_cases he : e.1 = k
    · simp [alInsert, he, alLookup, Ne.symm h]
    · simp [alInsert, he, alLookup, ih]

/-- A member of the inserted map is the new binding or an old member. -/
theorem mem_alInsert {β : Type} (e : String × β) (m : List (String × β)) (k : String) (v : β)
    (hm : e ∈ alInsert m k v) : e = (k, v) ∨ e ∈ m := by
  induction m with
  | nil => simpa [alInsert] using hm
  | cons e2 rest ih =>
    by_cases h : e2.1 = k
    · simp only [alInsert, h, if_true] at hm
      rcases List.mem_cons.mp hm with h2 | h2
      · exact Or.inl h2
      · exact Or.inr (List.mem_cons_of_mem e2 h2)
    · simp only [alInsert, h, if_false] at hm
      rcases List.mem_cons.mp hm with h2 | h2
      · exact Or.inr (by simp [h2])
      · rcases ih h2 with h3 | h3
        · exact Or.inl h3
        · exact Or.inr (List.mem_cons_of_mem e2 h3)

/-- The inserted binding is a member. -/
theorem alInsert_self_mem {β : Type} (m : List (String × β)) (k : String) (v : β) :
    (k, v) ∈ alInsert m k v := by
  induction m with
  | nil => simp [alInsert]
  | cons e rest ih =>
    by_cases h : e.1 = k
    · simp [alInsert, h]
    · simp only [alInsert, h, if_false]
      exact List.mem_cons_of_mem e ih

/-- A successful lookup exposes a member with that key and value. -/
theorem alLookup_mem {β : Type} :
    ∀ (m : List (String × β)) (k : String) (v : β),
      alLookup m k = some v → (k, v) ∈ m
  | [], _, _, h => by simp [alLookup] at h
  | e :: rest, k, v, h => by
    by_cases he : e.1 = k
    · simp only [alLookup, he, if_true, Option.some.injEq] at h
      subst h
      rw [← he]
      exact List.mem_cons_self e rest
    · simp only [alLookup, he, if_false] at h
      exact List.mem_cons_of_mem e (alLookup_mem rest k v h)

/-- Every entry of the zero-score fold has value 0. -/
theorem zeroScores_fold_entries :
    ∀ (cands : List String) (m : List (String × Nat)), (∀ e ∈ m, e.2 = 0) →
      ∀ e ∈ cands.foldl (fun m n => alInsert m n 0) m, e.2 = 0 := by
  intro cands
  induction cands with
  | nil => intro m hm e he; exact hm e he
  | cons c rest ih =>
    intro m hm e he
    refine ih (alInsert m c 0) ?_ e he
    intro e2 he2
    rcases mem_alInsert e2 m c 0 he2 with h | h
    · rw [h]
    · exact hm e2 h

/-- Every entry of `zeroScores` has value 0. -/
theorem zeroScores_entries (cands : List String) :
    ∀ e ∈ zeroScores cands, e.2 = 0 :=
  zeroScores_fold_entries cands [] (by simp)

/-- Looking up a candidate in the zero-score fold yields 0. -/
theorem zeroScores_fold_lookup :
    ∀ (cands : List String) (m : List (String × Nat)) (n : String),
      (n ∈ cands ∨ alLookup m n = some 0) →
      alLookup (cands.foldl (fun m n => alInsert m n 0) m) n = some 0 := by
  intro cands
  induction cands with
  | nil =>
    intro m n h
    rcases h with h | h
    · exact absurd h (by simp)
    · exact h
  | cons c rest ih =>
    intro m n h
    refine ih (alInsert m c 0) n ?_
    rcases h with h | h
    · rcases List.mem_cons.mp h with h2 | h2
      · subst h2
        exact Or.inr (alLookup_alInsert_self m n 0)
      · exact Or.inl h2
    · by_cases hc : n = c
      · subst hc
        exact Or.inr (alLookup_alInsert_self m n 0)
      · exact Or.inr (by rw [alLookup_alInsert_ne m c 0 n hc]; exact h)

/-- Looking up a candidate in `zeroScores` yields 0. -/
theorem zeroScores_lookup (cands : List String) (n : String) (h : n ∈ cands) :
    alLookup (zeroScores cands) n = some 0 :=
  zeroScores_fold_lookup cands [] n (Or.inl h)

/-- When every node has a bandwidth edge to `"xyji"`, the `bws` loop
succeeds and pairs each node with its bandwidth. -/
theorem bwsOf_eq (bw : BwMap) :
    ∀ (l : List String), (∀ n ∈ l, (bwGet bw (n, "xyji")).isSome) →
      bwsOf bw l = some (l.map (fun n => (n, (bwGet bw (n, "xyji")).getD 0))) := by
  intro l
  induction l with
  | nil => intro _; simp [bwsOf]
  | cons n rest ih =>
    intro h
    obtain ⟨b, hb⟩ := Option.isSome_iff_exists.mp (h n (by simp))
    simp only [bwsOf, hb, ih (fun x hx => h x (by simp [hx])), List.map_cons,
      Option.getD_some]

/-- Membership transfers across the stable sort. -/
theorem mem_sortBySnd {x : String × Nat} {l : List (String × Nat)} :
    x ∈ sortBySnd l ↔ x ∈ l :=
  (List.perm_insertionSort leSnd l).mem_iff

/-- The stable sort preserves length. -/
theorem length_sortBySnd (l : List (String × Nat)) :
    (sortBySnd l).length = l.length :=
  (List.perm_insertionSort leSnd l).length_eq

/-- The stable sort sorts by the second component. -/
theorem sorted_sortBySnd (l : List (String × Nat)) :
    List.Sorted leSnd (sortBySnd l) :=
  List.sorted_insertionSort leSnd l

/-- When the cursor is within the candidate count, the decision loop stops
exactly at the cursor position. -/
theorem findFromPos_lt :
    ∀ (l : List (String × Nat)) (pos c : Nat), pos ≤ c → c < pos + l.length →
      ∃ e ∈ l, findFromPos l pos c = some (c, e.1) := by
  intro l
  induction l with
  | nil => intro pos c h1 h2; simp at h2; omega
  | cons x rest ih =>
    intro pos c h1 h2
    by_cases h : pos ≥ c
    · have hpc : pos = c := le_antisymm h1 h
      subst hpc
      exact ⟨x, by simp, by simp [findFromPos, h]⟩
    · have hlt : pos < c := lt_of_not_ge h
      obtain ⟨e, he, heq⟩ := ih (pos + 1) c (by omega) (by simp at h2 ⊢; omega)
      exact ⟨e, List.mem_cons_of_mem x he, by simp only [findFromPos, if_neg h]; exact heq⟩

/-- When the cursor is past the candidate count, the decision loop finds
nothing. -/
theorem findFromPos_ge :
    ∀ (l : List (String × Nat)) (pos c : Nat), pos + l.length ≤ c →
      findFromPos l pos c = none := by
  intro l
  induction l with
  | nil => intro pos c _; rfl
  | cons x rest ih =>
    intro pos c h
    simp only [List.length_cons] at h
    have : ¬ pos ≥ c := by omega
    simp only [findFromPos, if_neg this]
    exact ih (pos + 1) c (by omega)

/-- In a list sorted by the second component, the first entry satisfying a
predicate has the least second component among all satisfying entries. -/
theorem sorted_find?_min (p : String × Nat → Bool) :
    ∀ (l : List (String × Nat)), List.Sorted leSnd l → ∀ x, l.find? p = some x →
      ∀ y ∈ l, p y = true → x.2 ≤ y.2 := by
  intro l
  induction l with
  | nil => intro _ x hx; simp at hx
  | cons h t ih =>
    intro hs x hx y hy hpy
    rw [List.sorted_cons] at hs
    cases hp : p h with
    | true =>
      rw [List.find?_cons_of_pos _ hp, Option.some.injEq] at hx
      subst hx
      rcases List.mem_cons.mp hy with h2 | h2
      · rw [h2]
      · exact hs.1 y h2
    | false =>
      rw [List.find?_cons_of_neg _ (by simp [hp])] at hx
      rcases List.mem_cons.mp hy with h2 | h2
      · rw [h2] at hpy; rw [hpy] at hp; cases hp
      · exact ih hs.2 x hx y h2 hpy

/-- Reduction of the storage path once both bandwidth lookups succeed. -/
theorem storagePath_reduce (allNodes candidates : List String) (bw : BwMap) (uuid : String)
    (choice m0 : List (String × Nat))
    (hc : bwsOf bw candidates
      = some (candidates.map (fun n => (n, (bwGet bw (n, "xyji")).getD 0))))
    (ha : bwsOf bw allNodes
      = some (allNodes.map (fun n => (n, (bwGet bw (n, "xyji")).getD 0)))) :
    storagePath allNodes candidates bw uuid choice m0 =
      match storageChoose (nodeWithIndex bw allNodes candidates)
          ((alLookup choice uuid).getD 0) allNodes.length with
      | none => none
      | some r => some ⟨alInsert m0 r.1 100, alInsert choice uuid r.2⟩ := by
  unfold storagePath
  rw [hc, ha]
  rfl

/-- The storage path always succeeds under the scheduler's calling
convention (non-empty candidates drawn from the cluster's nodes, every node
with a bandwidth edge): it scores one candidate 100 and writes back a
cursor that is the prior cursor plus one (mod the node count) when the
prior cursor is within the candidate count, and otherwise one past the
all-nodes index of the last sorted candidate. -/
theorem storagePath_eq (allNodes candidates : List String) (bw : BwMap) (uuid : String)
    (choice m0 : List (String × Nat))
    (hne : candidates ≠ [])
    (hsub : ∀ n ∈ candidates, n ∈ allNodes)
    (hbw : ∀ n ∈ allNodes, (bwGet bw (n, "xyji")).isSome) :
    ∃ chosen cur,
      storagePath allNodes candidates bw uuid choice m0
        = some ⟨alInsert m0 chosen 100, alInsert choice uuid cur⟩ ∧
      chosen ∈ candidates ∧
      ((alLookup choice uuid).getD 0 < candidates.length →
        cur = ((alLookup choice uuid).getD 0 + 1) % allNodes.length) ∧
      (candidates.length ≤ (alLookup choice uuid).getD 0 →
        ∃ last, (nodeWithIndex bw allNodes candidates).getLast? = some last ∧
          chosen = last.1 ∧ cur = (last.2 + 1) % allNodes.length) := by
  have hc := bwsOf_eq bw candidates (fun n hn => hbw n (hsub n hn))
  have ha := bwsOf_eq bw allNodes hbw
  obtain ⟨c0, hc0⟩ := List.exists_mem_of_ne_nil candidates hne
  have hall_ne2 : allNodes ≠ [] := by
    intro he
    rw [he] at hsub
    exact absurd (hsub c0 hc0) (List.not_mem_nil c0)
  have hall_ne : allNodes.length ≠ 0 := by
    intro hz
    exact hall_ne2 (List.length_eq_zero.mp hz)
  have hnwi_len : (nodeWithIndex bw allNodes candidates).length = candidates.length := by
    unfold nodeWithIndex
    rw [length_sortBySnd, List.length_map, List.length_map]
  have hnames : ∀ e ∈ nodeWithIndex bw allNodes candidates, e.1 ∈ candidates := by
    intro e he
    unfold nodeWithIndex at he
    rw [mem_sortBySnd] at he
    obtain ⟨b, hb, hbe⟩ := List.mem_map.mp he
    obtain ⟨n, hn, hnb⟩ := List.mem_map.mp hb
    subst hbe
    subst hnb
    exact hn
  by_cases hcase : (alLookup choice uuid).getD 0 < candidates.length
  · obtain ⟨e, he, heq⟩ := findFromPos_lt (nodeWithIndex bw allNodes candidates) 0
      ((alLookup choice uuid).getD 0) (Nat.zero_le _) (by rw [hnwi_len]; omega)
    refine ⟨e.1, ((alLookup choice uuid).getD 0 + 1) % allNodes.length, ?_,
      hnames e he, fun _ => rfl, fun hge => absurd hcase (Nat.not_lt.mpr hge)⟩
    rw [storagePath_reduce allNodes candidates bw uuid choice m0 hc ha]
    have hch : storageChoose (nodeWithIndex bw allNodes candidates)
        ((alLookup choice uuid).getD 0) allNodes.length
        = some (e.1, ((alLookup choice uuid).getD 0 + 1) % allNodes.length) := by
      unfold storageChoose
      rw [heq]
      simp [hall_ne]
    rw [hch]
  · have hle : candidates.length ≤ (alLookup choice uuid).getD 0 := Nat.le_of_not_lt hcase
    have hnone : findFromPos (nodeWithIndex bw allNodes candidates) 0
        ((alLookup choice uuid).getD 0) = none :=
      findFromPos_ge _ 0 _ (by rw [hnwi_len]; omega)
    have hnwi_ne : nodeWithIndex bw allNodes candidates ≠ [] := by
      intro hnil
      rw [hnil] at hnwi_len
      exact hne (List.length_eq_zero.mp hnwi_len.symm)
    obtain ⟨last, hlast⟩ : ∃ a, (nodeWithIndex bw allNodes candidates).getLast? = some a := by
      cases hl : (nodeWithIndex bw allNodes candidates).getLast? with
      | none => exact absurd (List.getLast?_eq_none_iff.mp hl) hnwi_ne
      | some a => exact ⟨a, rfl⟩
    have hmem_last : last ∈ nodeWithIndex bw allNodes candidates :=
      List.mem_of_mem_getLast? (by rw [hlast]; rfl)
    refine ⟨last.1, (last.2 + 1) % allNodes.length, ?_, hnames last hmem_last,
      fun hlt => absurd hlt hcase, fun _ => ⟨last, hlast, rfl, rfl⟩⟩
    rw [storagePath_reduce allNodes candidates bw uuid choice m0 hc ha]
    have hch : storageChoose (nodeWithIndex bw allNodes candidates)
        ((alLookup choice uuid).getD 0) allNodes.length
        = some (last.1, (last.2 + 1) % allNodes.length) := by
      unfold storageChoose
      rw [hnone, hlast]
      simp [hall_ne]
    rw [hch]

/-- Reduction of the workload-aware priority's compute branch once both
bandwidth lookups succeed. -/
theorem wna_compute_reduce (allNodes candidates : List String) (uuid : String)
    (bw : BwMap) (choice : List (String × Nat))
    (hc : bwsOf bw candidates
      = some (candidates.map (fun n => (n, (bwGet bw (n, "xyji")).getD 0))))
    (ha : bwsOf bw allNodes
      = some (allNodes.map (fun n => (n, (bwGet bw (n, "xyji")).getD 0)))) :
    WorkloadNetworkAwarePriority.priority allNodes candidates
        { uuid := uuid, workload_type := "compute" } bw choice =
      match (allBwsSorted bw allNodes).find? (fun ab => candidates.contains ab.1) with
      | some ab => some ⟨alInsert (zeroScores candidates) ab.1 100, choice⟩
      | none => storagePath allNodes candidates bw uuid choice (zeroScores candidates) := by
  unfold WorkloadNetworkAwarePriority.priority
  rw [hc, ha]
  rfl

/-- For a non-compute pod the workload-aware priority is exactly the
storage path, once both bandwidth lookups succeed. -/
theorem wna_storage_reduce (allNodes candidates : List String) (pod : PodLabels)
    (bw : BwMap) (choice : List (String × Nat))
    (hw : ¬ pod.workload_type = "compute")
    (hc : bwsOf bw candidates
      = some (candidates.map (fun n => (n, (bwGet bw (n, "xyji")).getD 0))))
    (ha : bwsOf bw allNodes
      = some (allNodes.map (fun n => (n, (bwGet bw (n, "xyji")).getD 0)))) :
    WorkloadNetworkAwarePriority.priority allNodes candidates pod bw choice =
      storagePath allNodes candidates bw pod.uuid choice (zeroScores candidates) := by
  unfold WorkloadNetworkAwarePriority.priority
  rw [hc, ha]
  simp only [if_neg hw]

/-- For a compute pod with candidates drawn from the cluster's nodes, the
workload-aware priority scores 100 on the candidate that appears first in
the ascending bandwidth-sorted all-nodes list — the candidate with the
least bandwidth to the storage node — and leaves the cursor untouched. -/
theorem computePath_spec (allNodes candidates : List String) (uuid : String)
    (bw : BwMap) (choice : List (String × Nat))
    (hne : candidates ≠ [])
    (hsub : ∀ n ∈ candidates, n ∈ allNodes)
    (hbw : ∀ n ∈ allNodes, (bwGet bw (n, "xyji")).isSome) :
    ∃ chosen,
      WorkloadNetworkAwarePriority.priority allNodes candidates
          { uuid := uuid, workload_type := "compute" } bw choice
        = some ⟨alInsert (zeroScores candidates) chosen 100, choice⟩ ∧
      chosen ∈ candidates ∧
      ∀ other ∈ candidates,
        (bwGet bw (chosen, "xyji")).getD 0 ≤ (bwGet bw (other, "xyji")).getD 0 := by
  have hc := bwsOf_eq bw candidates (fun n hn => hbw n (hsub n hn))
  have ha := bwsOf_eq bw allNodes hbw
  obtain ⟨c0, hc0⟩ := List.exists_mem_of_ne_nil candidates hne
  have hmem0 : ((c0, (bwGet bw (c0, "xyji")).getD 0) : String × Nat)
      ∈ allBwsSorted bw allNodes := by
    unfold allBwsSorted
    rw [mem_sortBySnd]
    exact List.mem_map.mpr ⟨c0, hsub c0 hc0, rfl⟩
  obtain ⟨ab, hab⟩ : ∃ ab, (allBwsSorted bw allNodes).find?
      (fun ab => candidates.contains ab.1) = some ab := by
    apply Option.isSome_iff_exists.mp
    rw [List.find?_isSome]
    exact ⟨_, hmem0, by simpa using List.elem_eq_true_of_mem hc0⟩
  have habm : ab ∈ allBwsSorted bw allNodes := List.mem_of_find?_eq_some hab
  have hab1 : ab.1 ∈ candidates := by
    have := List.find?_some hab
    simp only at this
    exact List.mem_of_elem_eq_true this
  have hab2 : ab.2 = (bwGet bw (ab.1, "xyji")).getD 0 := by
    unfold allBwsSorted at habm
    rw [mem_sortBySnd] at habm
    obtain ⟨n, _, hn⟩ := List.mem_map.mp habm
    subst hn
    rfl
  have hmin : ∀ other ∈ candidates, ab.2 ≤ (bwGet bw (other, "xyji")).getD 0 := by
    intro other ho
    have hym : ((other, (bwGet bw (other, "xyji")).getD 0) : String × Nat)
        ∈ allBwsSorted bw allNodes := by
      unfold allBwsSorted
      rw [mem_sortBySnd]
      exact List.mem_map.mpr ⟨other, hsub other ho, rfl⟩
    exact sorted_find?_min _ (allBwsSorted bw allNodes)
      (sorted_sortBySnd _) ab hab _ hym (by simpa using List.elem_eq_true_of_mem ho)
  refine ⟨ab.1, ?_, hab1, by rw [← hab2]; exact hmin⟩
  rw [wna_compute_reduce allNodes candidates uuid bw choice hc ha, hab]

/-- The scoring fold of `find_best_node`, specialized to a map whose only
positive entry is `(chosen, 100)`. -/
theorem fold_best (chosen : String) :
    ∀ (m : List (String × Nat)) (acc : String × Nat),
      (acc = ("", 0) ∨ acc = (chosen, 100)) →
      ((chosen, 100) ∈ m ∨ acc = (chosen, 100)) →
      (∀ e ∈ m, e.2 = 0 ∨ e = (chosen, 100)) →
      m.foldl (fun best kv => if kv.2 > best.2 then kv else best) acc = (chosen, 100) := by
  intro m
  induction m with
  | nil =>
    intro acc _ hmem _
    rcases hmem with h | h
    · exact absurd h (by simp)
    · simpa using h
  | cons e rest ih =>
    intro acc hacc hmem hall
    rw [List.foldl_cons]
    rcases hall e (by simp) with he0 | heq
    · have hno : ¬ (e.2 > acc.2) := by
        rcases hacc with h | h <;> rw [h] <;> simp <;> omega
      rw [if_neg hno]
      refine ih acc hacc ?_ (fun x hx => hall x (by simp [hx]))
      rcases hmem with hm | hm
      · rcases List.mem_cons.mp hm with h2 | h2
        · rw [← h2] at he0
          simp at he0
        · exact Or.inl h2
      · exact Or.inr hm
    · have hacc2 : (if e.2 > acc.2 then e else acc) = (chosen, 100) := by
        rcases hacc with h | h <;> rw [h, heq] <;> simp
      rw [hacc2]
      exact ih (chosen, 100) (Or.inr rfl) (Or.inr rfl)
        (fun x hx => hall x (by simp [hx]))

/-- `find_best_node` returns the unique 100-scored node of such a map. -/
theorem find_best_of_unique (m : List (String × Nat)) (chosen : String)
    (hmem : (chosen, 100) ∈ m) (hall : ∀ e ∈ m, e.2 = 0 ∨ e = (chosen, 100)) :
    find_best_node m = chosen := by
  unfold find_best_node
  rw [fold_best chosen m ("", 0) (Or.inl rfl) (Or.inl hmem) hall]

/-- The score map `zeroScores(candidates)` with `chosen` raised to 100:
`chosen` is the unique 100-scored key, every other candidate scores 0, and
`find_best_node` picks `chosen`. -/
theorem winner_spec (candidates : List String) (chosen : String) (_hch : chosen ∈ candidates) :
    alLookup (alInsert (zeroScores candidates) chosen 100) chosen = some 100 ∧
    (∀ k, k ≠ chosen → alLookup (alInsert (zeroScores candidates) chosen 100) k ≠ some 100) ∧
    (∀ other ∈ candidates, other ≠ chosen →
      alLookup (alInsert (zeroScores candidates) chosen 100) other = some 0) ∧
    find_best_node (alInsert (zeroScores candidates) chosen 100) = chosen := by
  refine ⟨alLookup_alInsert_self _ _ _, ?_, ?_, ?_⟩
  · intro k hk
    rw [alLookup_alInsert_ne _ _ _ _ hk]
    cases hl : alLookup (zeroScores candidates) k with
    | none => simp
    | some v =>
      have hv : v = 0 := zeroScores_entries candidates _ (alLookup_mem _ _ _ hl)
      rw [hv]
      simp
  · intro other ho hne2
    rw [alLookup_alInsert_ne _ _ _ _ hne2]
    exact zeroScores_lookup candidates other ho
  · refine find_best_of_unique _ chosen (alInsert_self_mem _ _ _) ?_
    intro e he
    rcases mem_alInsert e _ _ _ he with h | h
    · exact Or.inr h
    · exact Or.inl (zeroScores_entries candidates e h)

/-- C1, counterexample: with the hardcoded bandwidth map (bandwidths to
storage: node1 = 5, node02 = 20, node03 = 25), a compute pod with
candidates `[node1, node03]` is scored 100 on `node1` — the candidate with
the LEAST bandwidth (the compute branch walks `all_bws` in ascending order
and returns at the first candidate) — while the greatest-bandwidth
candidate `node03` gets score 0, contradicting the claim. -/
theorem C1_counterexample :
    (WorkloadNetworkAwarePriority.priority ["node1", "node02", "node03"]
        ["node1", "node03"] { uuid := "g", workload_type := "compute" }
        hard_coded_network_bandwidth_map []).map
      (fun r => (alLookup r.scores "node1", alLookup r.scores "node03"))
      = some (some 100, some 0) ∧
    bwGet hard_coded_network_bandwidth_map ("node1", "xyji") = some 5 ∧
    bwGet hard_coded_network_bandwidth_map ("node03", "xyji") = some 25 := by
  refine ⟨by decide, by decide, by decide⟩

/-- C1, amended: for every pod labeled `"compute"` and every non-empty
candidate list drawn from the cluster's nodes (each node having a bandwidth
edge to the storage node), the priority assigns score 100 to the candidate
with the LEAST bandwidth-to-storage (the candidate appearing earliest in
the ascending bandwidth-sorted list of all cluster nodes), score 0 to every
other candidate, and leaves the cursor map untouched. -/
theorem C1_amended_compute_pins_lowest_bw (allNodes candidates : List String)
    (uuid : String) (bw : BwMap) (choice : List (String × Nat))
    (hne : candidates ≠ [])
    (hsub : ∀ n ∈ candidates, n ∈ allNodes)
    (hbw : ∀ n ∈ allNodes, (bwGet bw (n, "xyji")).isSome) :
    ∃ r chosen,
      WorkloadNetworkAwarePriority.priority allNodes candidates
          { uuid := uuid, workload_type := "compute" } bw choice = some r ∧
      chosen ∈ candidates ∧
      alLookup r.scores chosen = some 100 ∧
      (∀ other ∈ candidates, other ≠ chosen → alLookup r.scores other = some 0) ∧
      (∀ other ∈ candidates,
        (bwGet bw (chosen, "xyji")).getD 0 ≤ (bwGet bw (other, "xyji")).getD 0) ∧
      r.choice = choice := by
  obtain ⟨chosen, heq, hmem, hmin⟩ := computePath_spec allNodes candidates uuid bw choice
    hne hsub hbw
  obtain ⟨h100, _, h0, _⟩ := winner_spec candidates chosen hmem
  exact ⟨_, chosen, heq, hmem, h100, h0, hmin, rfl⟩

/-- C1, witness: the amended theorem at the hardcoded bandwidth map with
candidates `[node1, node03]`. -/
theorem C1_witness :
    ((["node1", "node03"] : List String) ≠ [] ∧
      (∀ n ∈ (["node1", "node03"] : List String), n ∈ ["node1", "node02", "node03"]) ∧
      (∀ n ∈ (["node1", "node02", "node03"] : List String),
        (bwGet hard_coded_network_bandwidth_map (n, "xyji")).isSome)) ∧
    (∃ r chosen,
      WorkloadNetworkAwarePriority.priority ["node1", "node02", "node03"]
          ["node1", "node03"] { uuid := "g", workload_type := "compute" }
          hard_coded_network_bandwidth_map [] = some r ∧
      chosen ∈ (["node1", "node03"] : List String) ∧
      alLookup r.scores chosen = some 100 ∧
      (∀ other ∈ (["node1", "node03"] : List String), other ≠ chosen →
        alLookup r.scores other = some 0) ∧
      (∀ other ∈ (["node1", "node03"] : List String),
        (bwGet hard_coded_network_bandwidth_map (chosen, "xyji")).getD 0
          ≤ (bwGet hard_coded_network_bandwidth_map (other, "xyji")).getD 0) ∧
      r.choice = []) :=
  ⟨⟨by decide, by decide, by decide⟩,
    C1_amended_compute_pins_lowest_bw ["node1", "node02", "node03"] ["node1", "node03"]
      "g" hard_coded_network_bandwidth_map [] (by decide) (by decide) (by decide)⟩

/-- C9, counterexample: on cluster nodes `[node1, node02, node03]` with the
hardcoded bandwidth map, a storage-path call with the single candidate
`node03` (ascending-sorted index 2) and prior cursor 0 scores `node03` and
writes cursor 1 — the position in the sorted CANDIDATE sublist plus one —
whereas the claim's `(chosen_index + 1) mod |all_nodes| = (2 + 1) mod 3 = 0`. -/
theorem C9_counterexample :
    (NetworkAwarePriority.priority ["node1", "node02", "node03"] ["node03"]
        { uuid := "g", workload_type := "storage" }
        hard_coded_network_bandwidth_map []).map
      (fun r => (alLookup r.scores "node03", alLookup r.choice "g"))
      = some (some 100, some 1) ∧
    indexIn (allBwsSorted hard_coded_network_bandwidth_map ["node1", "node02", "node03"])
      "node03" = 2 ∧
    (2 + 1) % 3 = 0 ∧ (1 : Nat) ≠ 0 := by
  refine ⟨by decide, by decide, by decide, by decide⟩

/-- C9, amended: after a storage-path priority call (either priority; for
the workload-aware one, on a non-compute pod) with non-empty candidates
drawn from the cluster's nodes, the cursor for the pod's group equals the
prior cursor plus one modulo `|all_nodes|` whenever the prior cursor is
less than the candidate count (the decision loop compares the cursor
against positions in the sorted CANDIDATE sublist, not all-nodes indices),
and otherwise equals the all-nodes index of the last sorted candidate plus
one modulo `|all_nodes|`. -/
theorem C9_amended_cursor_update (allNodes candidates : List String) (pod : PodLabels)
    (bw : BwMap) (choice : List (String × Nat))
    (hne : candidates ≠ [])
    (hsub : ∀ n ∈ candidates, n ∈ allNodes)
    (hbw : ∀ n ∈ allNodes, (bwGet bw (n, "xyji")).isSome)
    (hw : ¬ pod.workload_type = "compute") :
    (∃ r cur, NetworkAwarePriority.priority allNodes candidates pod bw choice = some r ∧
      alLookup r.choice pod.uuid = some cur ∧
      ((alLookup choice pod.uuid).getD 0 < candidates.length →
        cur = ((alLookup choice pod.uuid).getD 0 + 1) % allNodes.length) ∧
      (candidates.length ≤ (alLookup choice pod.uuid).getD 0 →
        ∃ last, (nodeWithIndex bw allNodes candidates).getLast? = some last ∧
          cur = (last.2 + 1) % allNodes.length)) ∧
    (∃ r cur, WorkloadNetworkAwarePriority.priority allNodes candidates pod bw choice
        = some r ∧
      alLookup r.choice pod.uuid = some cur ∧
      ((alLookup choice pod.uuid).getD 0 < candidates.length →
        cur = ((alLookup choice pod.uuid).getD 0 + 1) % allNodes.length) ∧
      (candidates.length ≤ (alLookup choice pod.uuid).getD 0 →
        ∃ last, (nodeWithIndex bw allNodes candidates).getLast? = some last ∧
          cur = (last.2 + 1) % allNodes.length)) := by
  obtain ⟨chosen, cur, heq, _, hlt, hge⟩ := storagePath_eq allNodes candidates bw pod.uuid
    choice (zeroScores candidates) hne hsub hbw
  constructor
  · refine ⟨_, cur, heq, alLookup_alInsert_self _ _ _, hlt, ?_⟩
    intro h
    obtain ⟨last, h1, _, h3⟩ := hge h
    exact ⟨last, h1, h3⟩
  · have hr := wna_storage_reduce allNodes candidates pod bw choice hw
      (bwsOf_eq bw candidates (fun n hn => hbw n (hsub n hn))) (bwsOf_eq bw allNodes hbw)
    rw [hr]
    refine ⟨_, cur, heq, alLookup_alInsert_self _ _ _, hlt, ?_⟩
    intro h
    obtain ⟨last, h1, _, h3⟩ := hge h
    exact ⟨last, h1, h3⟩

/-- C9, witness: the amended theorem on the hardcoded map with candidates
equal to all three nodes and prior cursor 0 (found-branch: new cursor
`(0 + 1) % 3 = 1`). -/
theorem C9_witness :
    ((["node1", "node02", "node03"] : List String) ≠ [] ∧
      (∀ n ∈ (["node1", "node02", "node03"] : List String),
        n ∈ ["node1", "node02", "node03"]) ∧
      (∀ n ∈ (["node1", "node02", "node03"] : List String),
        (bwGet hard_coded_network_bandwidth_map (n, "xyji")).isSome) ∧
      ¬ ("storage" = "compute")) ∧
    (∃ r cur, NetworkAwarePriority.priority ["node1", "node02", "node03"]
        ["node1", "node02", "node03"] { uuid := "g", workload_type := "storage" }
        hard_coded_network_bandwidth_map [] = some r ∧
      alLookup r.choice "g" = some cur ∧
      ((alLookup ([] : List (String × Nat)) "g").getD 0
          < (["node1", "node02", "node03"] : List String).length →
        cur = ((alLookup ([] : List (String × Nat)) "g").getD 0 + 1) % 3) ∧
      ((["node1", "node02", "node03"] : List String).length
          ≤ (alLookup ([] : List (String × Nat)) "g").getD 0 →
        ∃ last, (nodeWithIndex hard_coded_network_bandwidth_map
            ["node1", "node02", "node03"] ["node1", "node02", "node03"]).getLast?
              = some last ∧
          cur = (last.2 + 1) % 3)) :=
  ⟨⟨by decide, by decide, by decide, by decide⟩,
    (C9_amended_cursor_update ["node1", "node02", "node03"] ["node1", "node02", "node03"]
      { uuid := "g", workload_type := "storage" } hard_coded_network_bandwidth_map []
      (by decide) (by decide) (by decide) (by decide)).1⟩

/-- C10: for every priority call (either implementation) with a non-empty
candidate list drawn from the cluster's nodes, where every cluster node has
a bandwidth-map entry to the storage node `"xyji"`, the returned score map
assigns 100 to exactly one node, that node is a candidate, every other
candidate scores 0, and `find_best_node` applied to the map returns that
candidate (never the empty string). -/
theorem C10_priority_unique_winner (allNodes candidates : List String) (pod : PodLabels)
    (bw : BwMap) (choice : List (String × Nat))
    (hne : candidates ≠ [])
    (hsub : ∀ n ∈ candidates, n ∈ allNodes)
    (hbw : ∀ n ∈ allNodes, (bwGet bw (n, "xyji")).isSome) :
    (∃ r chosen,
      NetworkAwarePriority.priority allNodes candidates pod bw choice = some r ∧
      chosen ∈ candidates ∧
      alLookup r.scores chosen = some 100 ∧
      (∀ k, k ≠ chosen → alLookup r.scores k ≠ some 100) ∧
      (∀ other ∈ candidates, other ≠ chosen → alLookup r.scores other = some 0) ∧
      find_best_node r.scores = chosen) ∧
    (∃ r chosen,
      WorkloadNetworkAwarePriority.priority allNodes candidates pod bw choice = some r ∧
      chosen ∈ candidates ∧
      alLookup r.scores chosen = some 100 ∧
      (∀ k, k ≠ chosen → alLookup r.scores k ≠ some 100) ∧
      (∀ other ∈ candidates, other ≠ chosen → alLookup r.scores other = some 0) ∧
      find_best_node r.scores = chosen) := by
  constructor
  · obtain ⟨chosen, cur, heq, hmem, _, _⟩ := storagePath_eq allNodes candidates bw pod.uuid
      choice (zeroScores candidates) hne hsub hbw
    obtain ⟨h100, huniq, h0, hfb⟩ := winner_spec candidates chosen hmem
    exact ⟨_, chosen, heq, hmem, h100, huniq, h0, hfb⟩
  · cases pod with
    | mk u w =>
      by_cases hw : w = "compute"
      · subst hw
        obtain ⟨chosen, heq, hmem, _⟩ := computePath_spec allNodes candidates u bw choice
          hne hsub hbw
        obtain ⟨h100, huniq, h0, hfb⟩ := winner_spec candidates chosen hmem
        exact ⟨_, chosen, heq, hmem, h100, huniq, h0, hfb⟩
      · have hr := wna_storage_reduce allNodes candidates ⟨u, w⟩ bw choice hw
          (bwsOf_eq bw candidates (fun n hn => hbw n (hsub n hn)))
          (bwsOf_eq bw allNodes hbw)
        rw [hr]
        obtain ⟨chosen, cur, heq, hmem, _, _⟩ := storagePath_eq allNodes candidates bw u
          choice (zeroScores candidates) hne hsub hbw
        obtain ⟨h100, huniq, h0, hfb⟩ := winner_spec candidates chosen hmem
        exact ⟨_, chosen, heq, hmem, h100, huniq, h0, hfb⟩

/-- C10, witness: the unique-winner theorem at the hardcoded bandwidth map
with candidates `[node1, node03]` and a storage pod. -/
theorem C10_witness :
    ((["node1", "node03"] : List String) ≠ [] ∧
      (∀ n ∈ (["node1", "node03"] : List String), n ∈ ["node1", "node02", "node03"]) ∧
      (∀ n ∈ (["node1", "node02", "node03"] : List String),
        (bwGet hard_coded_network_bandwidth_map (n, "xyji")).isSome)) ∧
    (∃ r chosen,
      NetworkAwarePriority.priority ["node1", "node02", "node03"] ["node1", "node03"]
          { uuid := "g", workload_type := "storage" }
          hard_coded_network_bandwidth_map [] = some r ∧
      chosen ∈ (["node1", "node03"] : List String) ∧
      alLookup r.scores chosen = some 100 ∧
      (∀ k, k ≠ chosen → alLookup r.scores k ≠ some 100) ∧
      (∀ other ∈ (["node1", "node03"] : List String), other ≠ chosen →
        alLookup r.scores other = some 0) ∧
      find_best_node r.scores = chosen) :=
  ⟨⟨by decide, by decide, by decide⟩,
    (C10_priority_unique_winner ["node1", "node02", "node03"] ["node1", "node03"]
      { uuid := "g", workload_type := "storage" } hard_coded_network_bandwidth_map []
      (by decide) (by decide) (by decide)).1⟩

/-- C2, counterexample: a scheduling attempt in which the bind returns
status code 500 (a bind failure, outside `[200, 202]`) still appends the
placement to the history for the pod's group and still emits the
`"Scheduled"` event — `eval_and_bind` returns `Ok(best_node)` from its
failure branch too, and `sched_pod` proceeds unconditionally. -/
theorem C2_counterexample :
    bind_ok (BindOutcome.code 500) = false ∧
    (sched_pod (fun _ _ => ["n1"]) (fun _ _ _ => [("n1", 100)])
      { node_resource_map := [("n1", { cpu := 10, mem_kb := 1000 })],
        prev_sched := [], events := [] }
      { name := "p", nspace := "spark", uuid := "g",
        resource := { cpu := 1, mem_kb := 1 } }
      (BindOutcome.code 500)).2.prev_sched
      = [("g", [{ node_name := "n1", nr := 1 }])] ∧
    (sched_pod (fun _ _ => ["n1"]) (fun _ _ _ => [("n1", 100)])
      { node_resource_map := [("n1", { cpu := 10, mem_kb := 1000 })],
        prev_sched := [], events := [] }
      { name := "p", nspace := "spark", uuid := "g",
        resource := { cpu := 1, mem_kb := 1 } }
      (BindOutcome.code 500)).2.events
      = ["Placed pod [spark/p] on n1\n"] := by
  refine ⟨by decide, by decide, by decide⟩

/-- C2, amended: the history append and the event emission are gated only
on the predicate producing a candidate — they happen for EVERY bind
outcome, success or failure; the bind outcome controls only the
node-resource-map deduction.  (They are skipped exactly when the predicate
returns no node, in which case `eval_and_bind` errors and `sched_pod`
returns `false`.) -/
theorem C2_amended_bind_failure_still_records
    (predicate : List (String × NodeResource) → PodResource → List String)
    (priorityFn : List String → List (String × NodeResource) → SchedPod →
      List (String × Nat))
    (st : SchedState) (pod : SchedPod) (outcome : BindOutcome)
    (hfit : predicate st.node_resource_map pod.resource ≠ []) :
    (sched_pod predicate priorityFn st pod outcome).1 = true ∧
    (sched_pod predicate priorityFn st pod outcome).2.prev_sched
      = update_sched_hist st.prev_sched pod.uuid
          (find_best_node (priorityFn (predicate st.node_resource_map pod.resource)
            st.node_resource_map pod)) ∧
    (sched_pod predicate priorityFn st pod outcome).2.events
      = st.events ++ ["Placed pod [" ++ pod.nspace ++ "/" ++ pod.name ++ "] on "
          ++ find_best_node (priorityFn (predicate st.node_resource_map pod.resource)
            st.node_resource_map pod) ++ "\n"] ∧
    (bind_ok outcome = false →
      (sched_pod predicate priorityFn st pod outcome).2.node_resource_map
        = st.node_resource_map) := by
  simp only [sched_pod, eval_and_bind, if_neg hfit]
  cases hb : bind_ok outcome with
  | true => simp only [if_pos rfl]; exact ⟨rfl, rfl, rfl, fun hf => absurd hf (by simp)⟩
  | false =>
    simp only [Bool.false_eq_true, if_false]
    exact ⟨trivial, trivial, trivial, fun _ => trivial⟩

/-- C2, witness: the amended theorem at the counterexample's inputs with a
succeeding bind (status 200): history appended, event emitted, resources
deducted. -/
theorem C2_witness :
    ((fun (_ : List (String × NodeResource)) (_ : PodResource) => ["n1"])
      ([("n1", { cpu := 10, mem_kb := 1000 })])
      ({ cpu := 1, mem_kb := 1 } : PodResource) ≠ []) ∧
    ((sched_pod (fun _ _ => ["n1"]) (fun _ _ _ => [("n1", 100)])
      { node_resource_map := [("n1", { cpu := 10, mem_kb := 1000 })],
        prev_sched := [], events := [] }
      { name := "p", nspace := "spark", uuid := "g",
        resource := { cpu := 1, mem_kb := 1 } }
      (BindOutcome.code 200)).1 = true ∧
    (sched_pod (fun _ _ => ["n1"]) (fun _ _ _ => [("n1", 100)])
      { node_resource_map := [("n1", { cpu := 10, mem_kb := 1000 })],
        prev_sched := [], events := [] }
      { name := "p", nspace := "spark", uuid := "g",
        resource := { cpu := 1, mem_kb := 1 } }
      (BindOutcome.code 200)).2.prev_sched
      = update_sched_hist [] "g" (find_best_node [("n1", 100)]) ∧
    (sched_pod (fun _ _ => ["n1"]) (fun _ _ _ => [("n1", 100)])
      { node_resource_map := [("n1", { cpu := 10, mem_kb := 1000 })],
        prev_sched := [], events := [] }
      { name := "p", nspace := "spark", uuid := "g",
        resource := { cpu := 1, mem_kb := 1 } }
      (BindOutcome.code 200)).2.events
      = [] ++ ["Placed pod [" ++ "spark" ++ "/" ++ "p" ++ "] on "
          ++ find_best_node [("n1", 100)] ++ "\n"] ∧
    (bind_ok (BindOutcome.code 200) = false →
      (sched_pod (fun _ _ => ["n1"]) (fun _ _ _ => [("n1", 100)])
        { node_resource_map := [("n1", { cpu := 10, mem_kb := 1000 })],
          prev_sched := [], events := [] }
        { name := "p", nspace := "spark", uuid := "g",
          resource := { cpu := 1, mem_kb := 1 } }
        (BindOutcome.code 200)).2.node_resource_map
        = [("n1", { cpu := 10, mem_kb := 1000 })])) :=
  ⟨by decide,
    C2_amended_bind_failure_still_records (fun _ _ => ["n1"]) (fun _ _ _ => [("n1", 100)])
      { node_resource_map := [("n1", { cpu := 10, mem_kb := 1000 })],
        prev_sched := [], events := [] }
      { name := "p", nspace := "spark", uuid := "g",
        resource := { cpu := 1, mem_kb := 1 } }
      (BindOutcome.code 200) (by decide)⟩
